import Mathlib

/-!
# Cubbyhole server: the mailbox and the per-connection protocol handler

A shallow embedding of `cubbyhole-server.c`.

* Bytes (`unsigned char`) are natural numbers; a buffer `unsigned char b[MAX_STRING]`
  is a list of bytes.  A read that runs past the end of a buffer has no defined
  behaviour in C; every function that can do so returns `none` there.
* The shared variables `cubby` and `empty` are the fields of `Mailbox`.
* A connection is driven by the list of byte sequences that its successive
  `recv` calls deliver.  The handler returns the mailbox it leaves behind, every
  byte it has passed to `send`, in order, and whether it has left its loop and
  closed the connection.  Console output (`printf`) is not modelled.
* The mailbox is handed to the handler and returned by it: the statements are about
  one connection working on the mailbox at a time.  The one exception is the `GET`
  branch run by two handlers at once (`getStep`, `runTwoGets`): there the steps are
  the test of `empty`, made without the lock, and the section under `cubbyLock`.
* The words of the specification are kept apart from the code: `normalizeRef`,
  `resolve`, `frame`, `slotAfter`, `echoed` and `slotAfterReads` are written from the
  specification and compared with `getCommand`, `dispatch` and `handleRequests`.
-/

namespace Cubbyhole

/-! ## Constants and the response catalogue -/

/-- The macro `MAX_STRING`. -/
def MAX_STRING : Nat := 256

/-- The bytes of a string literal, without a terminator. -/
def bytes (s : String) : List Nat := s.toList.map Char.toNat

/-- A string literal as it lies in memory: its bytes and the terminating NUL. -/
def cLit (s : String) : List Nat := bytes s ++ [0]

/-- The enumeration `respType`. -/
inductive respType where
  | WELCOME
  | HELP
  | DROP
  | GET
  | LOOK
  | PUT
  | QUIT
  | NOT_SUPPORTED
  | NO_MESSAGE
  | PROMPT
  deriving DecidableEq, Repr

/-- The array `responses`. -/
def responses : respType → String
  | .WELCOME => "!HELLO: Welcome to the Cubbyhole Server! Try 'help' for a list of commands"
  | .HELP => "!HELP:\nThe following commands are supported by this Cubbyhole:\n\nPUT <message>\t- Places a new message in the cubbyhole\nGET\t\t- Takes the message out of the cubbyhole and displays it\nLOOK\t\t- Displays the massage without taking it out of the cubbyhole\nDROP\t\t- Takes the message out of the cubbyhole without displaying it\nHELP\t\t- Displays this help message\nQUIT\t\t- Terminates the connection\n"
  | .DROP => "!DROP: ok"
  | .GET => "!GET: "
  | .LOOK => "!LOOK: "
  | .PUT => "!PUT: ok"
  | .QUIT => "!QUIT: ok"
  | .NOT_SUPPORTED => "!NOT SUPPORTED"
  | .NO_MESSAGE => "<no message stored>"
  | .PROMPT => "\n> "

/-! ## The C library functions the server uses -/

/-- A buffer after `memset(buf, 0, sizeof(buf))` with `sizeof(buf) = MAX_STRING`. -/
def zeroed : List Nat := List.replicate MAX_STRING 0

/-- The function `strlen`: the index of the first NUL; `none` when the buffer holds none. -/
def strlen : List Nat → Option Nat
  | [] => none
  | c :: cs => if c = 0 then some 0 else (strlen cs).map (· + 1)

/-- Whether `strncmp(a, b, n) == 0`: the buffers are compared byte by byte, for at
most `n` bytes, stopping after a NUL. -/
def strncmp0 : List Nat → List Nat → Nat → Option Bool
  | _, _, 0 => some true
  | [], _, _ + 1 => none
  | _ :: _, [], _ + 1 => none
  | a :: as, b :: bs, n + 1 =>
    if a ≠ b then some false else if a = 0 then some true else strncmp0 as bs n

/-- The `n` bytes `strncpy(dst, src, n)` writes: the bytes of `src` up to its NUL,
then NULs. -/
def strncpyBytes : List Nat → Nat → Option (List Nat)
  | _, 0 => some []
  | [], _ + 1 => none
  | c :: cs, n + 1 =>
    if c = 0 then some (List.replicate (n + 1) 0) else (strncpyBytes cs n).map (c :: ·)

/-- The function `strncpy(dst, src, n)`: the first `n` bytes of `dst` are overwritten. -/
def strncpy (dst src : List Nat) (n : Nat) : Option (List Nat) :=
  if n ≤ dst.length then (strncpyBytes src n).map (· ++ dst.drop n) else none

/-- The function `memcpy(dst, src, n)`. -/
def memcpy (dst src : List Nat) (n : Nat) : Option (List Nat) :=
  if n ≤ dst.length ∧ n ≤ src.length then some (src.take n ++ dst.drop n) else none

/-- The function `toupper` in the C locale. -/
def toupper (c : Nat) : Nat := if 97 ≤ c ∧ c ≤ 122 then c - 32 else c

/-- The call `recv(fd, buf, sizeof(buf), 0)`: at most `sizeof(buf)` of the bytes
that arrived are written to the start of `buf`, the rest of `buf` keeps its bytes. -/
def recv (buf arrived : List Nat) : List Nat :=
  arrived.take buf.length ++ buf.drop (arrived.take buf.length).length

/-! ## The shared mailbox -/

/-- The shared variables: `cubby`, the message storage, and `empty`, the indicator
that is `0` when no message is stored and non-zero when one is. -/
structure Mailbox where
  cubby : List Nat
  empty : Nat
  deriving DecidableEq, Repr

/-- The mailbox as `main` sets it up (lines 430-431). -/
def initMailbox : Mailbox := { cubby := zeroed, empty := 0 }

/-! ## The functions of the server -/

/-- The function `sendResponse`: the bytes passed to `send`, in order.  The payload is
included when `incPayload = 0`. -/
def sendResponse (TYPE : respType) (incPayload : Nat) (payload : List Nat) :
    Option (List Nat) :=
  if incPayload = 0 then
    (strlen payload).map fun n =>
      bytes (responses TYPE) ++ payload.take n ++ bytes (responses .PROMPT)
  else
    some (bytes (responses TYPE) ++ bytes (responses .PROMPT))

/-- The loop of `getCommand` (lines 149-160) from a position of `tmpReq` on: the bytes
it writes to `req[u]`, `req[u+1]`, ... -/
def getCommandLoop : List Nat → Option (List Nat)
  | [] => none
  | c :: cs =>
    if c = 0 then some []
    else if c ≠ 10 ∧ c ≠ 13 then (getCommandLoop cs).map (toupper c :: ·)
    else getCommandLoop cs

/-- The function `getCommand`: both buffers are zeroed, `recv` fills `tmpReq`, the loop
fills `req`.  The result is the pair of `req` (the returned command) and `tmpReq`. -/
def getCommand (arrived : List Nat) : Option (List Nat × List Nat) :=
  let req := zeroed
  let tmpReq := recv zeroed arrived
  (getCommandLoop tmpReq).map fun w => (w ++ req.drop w.length, tmpReq)

/-- The loop of `extractPayload` (lines 178-185) from a position of `tmpReq` on: the
bytes it writes to `payload[u]`, `payload[u+1]`, ... -/
def extractPayloadLoop : List Nat → Option (List Nat)
  | [] => none
  | c :: cs =>
    if c = 0 then some []
    else if c ≠ 10 ∧ c ≠ 13 then (extractPayloadLoop cs).map (c :: ·)
    else extractPayloadLoop cs

/-- The function `extractPayload`: `payload` is zeroed and filled from `tmpReq[4]` on. -/
def extractPayload (tmpReq : List Nat) : Option (List Nat) :=
  let payload := zeroed
  (extractPayloadLoop (tmpReq.drop 4)).map fun w => w ++ payload.drop w.length

/-- The body of the `while` loop of `handleRequests` up to the re-read (lines 231-349):
the chain of comparisons on the command and the branch taken.  The result is the mailbox
afterwards and the bytes sent. -/
def dispatch (m : Mailbox) (command : List Nat) (length : Nat) (tmpReq : List Nat) :
    Option (Mailbox × List Nat) := do
  let payload := zeroed
  let isHelp ← strncmp0 command (cLit "HELP") 4
  if isHelp && length == 4 then
    let out ← sendResponse .HELP 1 payload
    pure (m, out)
  else do
  let isDrop ← strncmp0 command (cLit "DROP") 4
  if isDrop && length == 4 then
    let m1 : Mailbox := if m.empty ≠ 0 then { cubby := zeroed, empty := 0 } else m
    let out ← sendResponse .DROP 1 payload
    pure (m1, out)
  else do
  let isGet ← strncmp0 command (cLit "GET") 3
  if isGet && length == 3 then
    let payload ← memcpy payload (cLit (responses .NO_MESSAGE))
      (bytes (responses .NO_MESSAGE)).length
    if m.empty ≠ 0 then
      let payload := zeroed
      let n ← strlen m.cubby
      let payload ← strncpy payload m.cubby n
      let payload := payload.set 255 0
      let out ← sendResponse .GET 0 payload
      pure ({ cubby := zeroed, empty := 0 }, out)
    else
      let out ← sendResponse .GET 0 payload
      pure (m, out)
  else do
  let isLook ← strncmp0 command (cLit "LOOK") 4
  if isLook && length == 4 then
    let payload ← memcpy payload (cLit (responses .NO_MESSAGE))
      (bytes (responses .NO_MESSAGE)).length
    if m.empty ≠ 0 then
      let payload := zeroed
      let n ← strlen m.cubby
      let payload ← strncpy payload m.cubby n
      let payload := payload.set 255 0
      let out ← sendResponse .LOOK 0 payload
      pure (m, out)
    else
      let out ← sendResponse .LOOK 0 payload
      pure (m, out)
  else do
  let isPut ← strncmp0 command (cLit "PUT") 3
  if isPut then
    let payload ← extractPayload tmpReq
    let cubby := zeroed
    let n ← strlen payload
    let cubby ← strncpy cubby payload n
    let cubby := cubby.set 255 0
    let out ← sendResponse .PUT 1 payload
    pure ({ cubby := cubby, empty := 1 }, out)
  else
    let out ← sendResponse .NOT_SUPPORTED 1 payload
    pure (m, out)

/-- What a handler has done when its reads are used up or it has terminated. -/
structure Result where
  box : Mailbox
  sent : List Nat
  closed : Bool
  deriving DecidableEq, Repr

/-- The `while` loop of `handleRequests` (lines 229-361), entered with a command, its
length and the raw request; `reads` are the byte sequences the following `recv` calls
deliver and `sent` the bytes sent so far.  When the loop is left the `QUIT` response is
sent and the connection closed (lines 363-378); the reads that remain are not looked
at.  When the reads are used up the handler is blocked in `recv`. -/
def whileLoop (m : Mailbox) (command : List Nat) (length : Nat) (tmpReq : List Nat)
    (reads : List (List Nat)) (sent : List Nat) : Option Result :=
  (strncmp0 command (cLit "QUIT") 4).bind fun isQuit =>
  if !isQuit || length != 4 then
    (dispatch m command length tmpReq).bind fun r =>
    match reads with
    | [] => some { box := r.1, sent := sent ++ r.2, closed := false }
    | arrived :: rest =>
      (getCommand arrived).bind fun c =>
      (strlen c.1).bind fun length1 =>
      if length1 = 0 then
        whileLoop r.1 (cLit "QUIT") 4 c.2 rest (sent ++ r.2)
      else
        whileLoop r.1 c.1 length1 c.2 rest (sent ++ r.2)
  else
    (sendResponse .QUIT 1 zeroed).bind fun out =>
    some { box := m, sent := sent ++ out, closed := true }

/-- The handler at the re-read inside the loop (lines 351-360): the next command is
received and normalised, an empty one is replaced by `QUIT`, and the loop goes on. -/
def reRead (m : Mailbox) (reads : List (List Nat)) (sent : List Nat) : Option Result :=
  match reads with
  | [] => some { box := m, sent := sent, closed := false }
  | arrived :: rest =>
    (getCommand arrived).bind fun c =>
    (strlen c.1).bind fun length1 =>
    if length1 = 0 then
      whileLoop m (cLit "QUIT") 4 c.2 rest sent
    else
      whileLoop m c.1 length1 c.2 rest sent

/-- The function `handleRequests`: the welcome is sent, the first command is read
(lines 225-227, with no test for an empty command) and the loop is entered. -/
def handleRequests (m : Mailbox) (reads : List (List Nat)) : Option Result :=
  (sendResponse .WELCOME 1 zeroed).bind fun hello =>
  match reads with
  | [] => some { box := m, sent := hello, closed := false }
  | arrived :: rest =>
    (getCommand arrived).bind fun c =>
    (strlen c.1).bind fun length =>
    whileLoop m c.1 length c.2 rest hello

/-! ## Vocabulary for the statements -/

/-- The C string a buffer holds: its bytes before the first NUL. -/
def cstr : List Nat → Option (List Nat)
  | [] => none
  | c :: cs => if c = 0 then some [] else (cstr cs).map (c :: ·)

/-- The normalised text of a received byte sequence: the C string `getCommand` returns. -/
def normalized (arrived : List Nat) : Option (List Nat) :=
  (getCommand arrived).bind fun c => cstr c.1

/-- A buffer of `MAX_STRING` bytes that holds the string `s` and is zero after it. -/
def padded (s : List Nat) : List Nat := s ++ List.replicate (MAX_STRING - s.length) 0

/-- A byte that is neither NUL nor a line-ending byte. -/
def plain (c : Nat) : Prop := c ≠ 0 ∧ c ≠ 10 ∧ c ≠ 13

instance (c : Nat) : Decidable (plain c) := by unfold plain; infer_instance

/-- A line-ending byte: LF or CR. -/
def eol (c : Nat) : Prop := c = 10 ∨ c = 13

instance (c : Nat) : Decidable (eol c) := by unfold eol; infer_instance

/-- A mailbox whose content is a buffer of `MAX_STRING` bytes that holds a NUL. -/
def Mailbox.wf (m : Mailbox) : Prop := m.cubby.length = MAX_STRING ∧ 0 ∈ m.cubby

instance (m : Mailbox) : Decidable m.wf := by unfold Mailbox.wf; infer_instance

/-- The received bytes without their line-ending bytes. -/
def dropEol (s : List Nat) : List Nat := s.filter fun c => c ≠ 10 ∧ c ≠ 13

/-- Handling the received bytes `arrived` in mailbox state `m` is one pass through the
loop: the command is not empty and not `QUIT`, the mailbox becomes `m1` and `out` is
sent. -/
def Pass (m : Mailbox) (arrived : List Nat) (m1 : Mailbox) (out : List Nat) : Prop :=
  ∃ req tmpReq s, getCommand arrived = some (req, tmpReq) ∧ cstr req = some s ∧ s ≠ [] ∧
    s ≠ bytes "QUIT" ∧ dispatch m req s.length tmpReq = some (m1, out)

/-- The result of a handler that had already sent the bytes `pre`. -/
def Result.prepend (pre : List Nat) (r : Result) : Result :=
  { box := r.box, sent := pre ++ r.sent, closed := r.closed }

/-- The property of the mailbox that every command keeps: the content is a terminated
buffer of `MAX_STRING` bytes, and it is all zero when the mailbox is unoccupied. -/
def Mailbox.sound (m : Mailbox) : Prop := m.wf ∧ (m.empty = 0 → m.cubby = zeroed)

instance (m : Mailbox) : Decidable m.sound := by unfold Mailbox.sound; infer_instance

/-- The ASCII upper-case form of a byte: the letters `a` to `z` become `A` to `Z`. -/
def asciiUpper (c : Nat) : Nat := if 97 ≤ c ∧ c ≤ 122 then c - 32 else c

/-- Reference definition of the normalised command, in the words of the specification:
the bytes up to the first NUL, every byte 0x0A and 0x0D deleted, each remaining byte
replaced by its ASCII upper-case form, order preserved. -/
def normalizeRef (buf : List Nat) : List Nat :=
  (((buf.takeWhile fun c => c ≠ 0).filter fun c => c ≠ 10 ∧ c ≠ 13).map asciiUpper)

/-- One response as the specification frames it: the catalogue string of the response,
the payload bytes, the prompt. -/
def frame (T : respType) (payload : List Nat) : List Nat :=
  bytes (responses T) ++ payload ++ bytes (responses .PROMPT)

/-- The response a normalised command text is resolved to, by the table of the
specification: HELP, DROP, GET, LOOK and QUIT by exact match, anything else unsupported;
PUT is matched by its first three bytes, as line 324 does. -/
def resolve (s : List Nat) : respType :=
  if s = bytes "HELP" then .HELP
  else if s = bytes "DROP" then .DROP
  else if s = bytes "GET" then .GET
  else if s = bytes "LOOK" then .LOOK
  else if s = bytes "QUIT" then .QUIT
  else if s.take 3 = bytes "PUT" then .PUT
  else .NOT_SUPPORTED

/-- The concrete mailbox that stands for an abstract one: no message, or the message
`p`. -/
def Mailbox.ofSlot : Option (List Nat) → Mailbox
  | none => initMailbox
  | some p => { cubby := padded p, empty := 1 }

/-- A message that fits the mailbox: no NUL, at most 255 bytes. -/
def SlotOK (slot : Option (List Nat)) : Prop := ∀ p, slot = some p → 0 ∉ p ∧ p.length ≤ 255

instance (slot : Option (List Nat)) : Decidable (SlotOK slot) :=
  match slot with
  | none => isTrue fun _ hp => by cases hp
  | some q =>
    if h : 0 ∉ q ∧ q.length ≤ 255 then isTrue fun p hp => by cases hp; exact h
    else isFalse fun hk => h (hk q rfl)

/-- The mailbox operations in the words of the specification: `Put` stores its message,
`Get` and `Drop` remove the message, everything else leaves the mailbox as it is. -/
def slotAfter (slot : Option (List Nat)) (T : respType) (payload : List Nat) :
    Option (List Nat) :=
  match T with
  | .PUT => some payload
  | .GET => none
  | .DROP => none
  | _ => slot

/-- The payload a response echoes, in the words of the specification: for GET and LOOK
the stored message or the sentinel, for every other response nothing. -/
def echoed (slot : Option (List Nat)) (T : respType) : List Nat :=
  match T with
  | .GET => slot.getD (bytes (responses .NO_MESSAGE))
  | .LOOK => slot.getD (bytes (responses .NO_MESSAGE))
  | _ => []

/-- The payload of a received `PUT` line as the code takes it: the bytes from the fifth
on, up to the first NUL, without the line-ending bytes. -/
def payloadRef (arrived : List Nat) : List Nat :=
  ((arrived.drop 4).takeWhile fun c => c ≠ 0).filter fun c => c ≠ 10 ∧ c ≠ 13

/-- The message the mailbox holds after the reads of one connection, in the words of the
specification: each handled command acts by `slotAfter` with the payload of its line;
`QUIT`, and an empty command at any read but the first (`first = false`), end the
session, and the reads after them are not handled. -/
def slotAfterReads (first : Bool) (slot : Option (List Nat)) :
    List (List Nat) → Option (List Nat)
  | [] => slot
  | a :: rest =>
    if normalizeRef a = bytes "QUIT" ∨ (normalizeRef a = [] ∧ first = false) then slot
    else slotAfterReads false (slotAfter slot (resolve (normalizeRef a)) (payloadRef a)) rest

/-- The frame `f` answers the received bytes `arrived`: its response is the one the
normalised text resolves to, one of the six responses of `dispatch`, and it carries a
payload only for GET and LOOK. -/
def Answers (arrived : List Nat) (f : respType × List Nat) : Prop :=
  ∃ s, normalized arrived = some s ∧ f.1 = resolve s ∧
    f.1 ∈ [respType.HELP, respType.DROP, respType.GET, respType.LOOK, respType.PUT,
      respType.NOT_SUPPORTED] ∧
    (f.1 ≠ respType.GET → f.1 ≠ respType.LOOK → f.2 = [])

instance (arrived : List Nat) (f : respType × List Nat) : Decidable (Answers arrived f) :=
  match h : normalized arrived with
  | none => isFalse fun ⟨s, hs, _⟩ => by rw [h] at hs; cases hs
  | some s =>
    if hp : f.1 = resolve s ∧
        f.1 ∈ [respType.HELP, respType.DROP, respType.GET, respType.LOOK, respType.PUT,
          respType.NOT_SUPPORTED] ∧
        (f.1 ≠ respType.GET → f.1 ≠ respType.LOOK → f.2 = []) then
      isTrue ⟨s, h, hp⟩
    else
      isFalse fun ⟨s', hs', hp'⟩ => by
        rw [h] at hs'
        cases hs'
        exact hp hp'

/-- The mailboxes reachable from the initial one: by any number of connections, one at a
time, each handling any sequence of received requests. -/
inductive Reachable : Mailbox → Prop where
  | init : Reachable initMailbox
  | session {m : Mailbox} (reads : List (List Nat)) (r : Result) :
      Reachable m → handleRequests m reads = some r → Reachable r.box

/-- How far a handler has come in the `GET` branch (lines 264-295): before the test of
`empty`, after the test with its outcome, or after its response is sent. -/
inductive GetPc where
  | start
  | tested (occupied : Bool)
  | sent (out : List Nat)
  deriving DecidableEq, Repr

/-- One step of a handler in the `GET` branch on the shared mailbox.  The test
`empty != 0` (line 270) is a step of its own: it is made before the lock is taken.  The
section between `pthread_mutex_lock` and `pthread_mutex_unlock` (lines 275-287) is one
step, with the `memset` of the local payload before it and the send after it; so is the
send of the default payload when the test found the mailbox empty.  A handler that has
sent its response makes no further step. -/
def getStep (m : Mailbox) : GetPc → Option (Mailbox × GetPc)
  | .start => some (m, .tested (m.empty != 0))
  | .tested true =>
    (strlen m.cubby).bind fun n =>
    (strncpy zeroed m.cubby n).bind fun payload =>
    (sendResponse .GET 0 (payload.set 255 0)).bind fun out =>
    some ({ cubby := zeroed, empty := 0 }, .sent out)
  | .tested false =>
    (memcpy zeroed (cLit (responses .NO_MESSAGE)) (bytes (responses .NO_MESSAGE)).length).bind
      fun payload =>
    (sendResponse .GET 0 payload).bind fun out =>
    some (m, .sent out)
  | .sent out => some (m, .sent out)

/-- Two handlers in the `GET` branch under a schedule: `true` lets the first handler make
its next step, `false` the second. -/
def runTwoGets (m : Mailbox) (a b : GetPc) : List Bool → Option (Mailbox × GetPc × GetPc)
  | [] => some (m, a, b)
  | true :: sched => (getStep m a).bind fun r => runTwoGets r.1 r.2 b sched
  | false :: sched => (getStep m b).bind fun r => runTwoGets r.1 a r.2 sched

/-! ## Lemmas on the C library functions and the buffers -/


theorem zeroed_length : zeroed.length = 256 := List.length_replicate _ _

theorem zeroed_drop (k : Nat) : zeroed.drop k = List.replicate (MAX_STRING - k) 0 :=
  List.drop_replicate _ _ _

theorem toupper_ne_zero {c : Nat} (h : c ≠ 0) : toupper c ≠ 0 := by
  unfold toupper; split <;> omega

theorem strlen_append_nul (s t : List Nat) (hs : 0 ∉ s) :
    strlen (s ++ 0 :: t) = some s.length := by
  induction s with
  | nil => simp [strlen]
  | cons c cs ih =>
    simp only [List.mem_cons, not_or] at hs
    have hc : c ≠ 0 := fun h => hs.1 h.symm
    simp [strlen, hc, ih hs.2]

theorem cstr_append_nul (s t : List Nat) (hs : 0 ∉ s) :
    cstr (s ++ 0 :: t) = some s := by
  induction s with
  | nil => simp [cstr]
  | cons c cs ih =>
    simp only [List.mem_cons, not_or] at hs
    have hc : c ≠ 0 := fun h => hs.1 h.symm
    simp [cstr, hc, ih hs.2]

theorem cstr_eq_some {buf s : List Nat} (h : cstr buf = some s) :
    ∃ t, buf = s ++ 0 :: t ∧ 0 ∉ s := by
  induction buf generalizing s with
  | nil => simp [cstr] at h
  | cons c cs ih =>
    by_cases hc : c = 0
    · subst hc
      simp [cstr] at h
      subst h
      exact ⟨cs, rfl, by simp⟩
    · simp only [cstr, hc, if_false, Option.map_eq_some'] at h
      obtain ⟨w, hw, rfl⟩ := h
      obtain ⟨t, rfl, h0⟩ := ih hw
      exact ⟨t, rfl, by simp [h0, Ne.symm hc]⟩

theorem exists_split_of_mem {l : List Nat} (h : 0 ∈ l) :
    ∃ s t, l = s ++ 0 :: t ∧ 0 ∉ s := by
  induction l with
  | nil => simp at h
  | cons c cs ih =>
    by_cases hc : c = 0
    · subst hc
      exact ⟨[], cs, rfl, by simp⟩
    · have h1 : 0 ∈ cs := by
        rcases List.mem_cons.1 h with h | h
        · exact absurd h.symm hc
        · exact h
      obtain ⟨s, t, rfl, h0⟩ := ih h1
      exact ⟨c :: s, t, rfl, by simp [h0, Ne.symm hc]⟩

theorem strncpyBytes_append_nul (s t : List Nat) (hs : 0 ∉ s) :
    strncpyBytes (s ++ 0 :: t) s.length = some s := by
  induction s with
  | nil => simp [strncpyBytes]
  | cons c cs ih =>
    simp only [List.mem_cons, not_or] at hs
    have hc : c ≠ 0 := fun h => hs.1 h.symm
    simp [strncpyBytes, hc, ih hs.2]

theorem strncmp0_append_nul (s t l : List Nat) (hs : 0 ∉ s) (hl : 0 ∉ l) (n : Nat) :
    strncmp0 (s ++ 0 :: t) (l ++ [0]) n = some (decide (s.take n = l.take n)) := by
  induction n generalizing s l with
  | zero => simp [strncmp0]
  | succ n ih =>
    cases s with
    | nil =>
      cases l with
      | nil => simp [strncmp0]
      | cons b bs =>
        have hb : ¬ 0 = b := fun h => hl (by simp [h])
        simp [strncmp0, hb]
    | cons a as =>
      simp only [List.mem_cons, not_or] at hs
      have ha : a ≠ 0 := fun h => hs.1 h.symm
      cases l with
      | nil => simp [strncmp0, ha]
      | cons b bs =>
        simp only [List.mem_cons, not_or] at hl
        by_cases hab : a = b
        · subst hab
          simp [strncmp0, ha, ih as bs hs.2 hl.2]
        · simp [strncmp0, hab]

theorem getCommandLoop_append_nul (s t : List Nat) (hs : 0 ∉ s) :
    getCommandLoop (s ++ 0 :: t) = some ((dropEol s).map toupper) := by
  induction s with
  | nil => simp [getCommandLoop, dropEol]
  | cons c cs ih =>
    simp only [List.mem_cons, not_or] at hs
    have hc : c ≠ 0 := fun h => hs.1 h.symm
    have ih1 := ih hs.2
    by_cases h : c ≠ 10 ∧ c ≠ 13
    · simp [getCommandLoop, hc, h, ih1, dropEol, List.filter_cons]
    · have hd : dropEol (c :: cs) = dropEol cs := by simp [dropEol, List.filter_cons, h]
      rw [hd, ← ih1]
      simp [getCommandLoop, hc, h]

theorem extractPayloadLoop_append_nul (s t : List Nat) (hs : 0 ∉ s) :
    extractPayloadLoop (s ++ 0 :: t) = some (dropEol s) := by
  induction s with
  | nil => simp [extractPayloadLoop, dropEol]
  | cons c cs ih =>
    simp only [List.mem_cons, not_or] at hs
    have hc : c ≠ 0 := fun h => hs.1 h.symm
    have ih1 := ih hs.2
    by_cases h : c ≠ 10 ∧ c ≠ 13
    · simp [extractPayloadLoop, hc, h, ih1, dropEol, List.filter_cons]
    · have hd : dropEol (c :: cs) = dropEol cs := by simp [dropEol, List.filter_cons, h]
      rw [hd, ← ih1]
      simp [extractPayloadLoop, hc, h]

theorem padded_eq (s : List Nat) (h : s.length ≤ 255) :
    padded s = s ++ 0 :: List.replicate (255 - s.length) 0 := by
  have : MAX_STRING - s.length = (255 - s.length) + 1 := by unfold MAX_STRING; omega
  rw [padded, this, List.replicate_succ]

theorem append_zeroed_drop (s : List Nat) : s ++ zeroed.drop s.length = padded s := by
  rw [zeroed_drop, padded]

theorem recv_zeroed (r : List Nat) (h : r.length ≤ 256) : recv zeroed r = padded r := by
  have : List.take 256 r = r := List.take_of_length_le h
  rw [recv, zeroed_length, this, append_zeroed_drop]

theorem dropEol_length_le (s : List Nat) : (dropEol s).length ≤ s.length :=
  List.length_filter_le _ _

theorem zero_not_mem_upper {s : List Nat} (h : 0 ∉ s) : 0 ∉ (dropEol s).map toupper := by
  intro hm
  obtain ⟨c, hc, h0⟩ := List.mem_map.1 hm
  have hcs : c ∈ s := (List.mem_filter.1 hc).1
  exact toupper_ne_zero (fun e => h (e ▸ hcs)) h0

theorem zero_not_mem_dropEol {s : List Nat} (h : 0 ∉ s) : 0 ∉ dropEol s :=
  fun hm => h (List.mem_filter.1 hm).1

theorem padded_set (s : List Nat) (h : s.length ≤ 255) : (padded s).set 255 0 = padded s := by
  rw [padded, List.set_append]
  have h1 : ¬ 255 < s.length := by omega
  simp only [h1, if_false]
  congr 1
  exact List.set_replicate_self

theorem strncmp0_cLit (s t : List Nat) (hs : 0 ∉ s) (k : String) (hk : 0 ∉ bytes k)
    (n : Nat) :
    strncmp0 (s ++ 0 :: t) (cLit k) n = some (decide (s.take n = (bytes k).take n)) :=
  strncmp0_append_nul s t (bytes k) hs hk n

theorem exact_match (s k : List Nat) :
    (decide (s.take k.length = k) && (s.length == k.length)) = decide (s = k) := by
  by_cases h : s = k
  · subst h
    simp
  · have : ¬ (s.take k.length = k ∧ s.length = k.length) := by
      rintro ⟨h1, h2⟩
      exact h (by rw [← h1, List.take_of_length_le (le_of_eq h2)])
    simp only [h, decide_False]
    by_cases h1 : s.take k.length = k
    · have h2 : ¬ s.length = k.length := fun h2 => this ⟨h1, h2⟩
      simp [h2]
    · simp [h1]

theorem sendResponse_plain (T : respType) (payload : List Nat) :
    sendResponse T 1 payload = some (bytes (responses T) ++ bytes (responses .PROMPT)) := by
  simp [sendResponse]

theorem sendResponse_payload (T : respType) (s : List Nat) (hs : 0 ∉ s) (t : List Nat) :
    sendResponse T 0 (s ++ 0 :: t) =
      some (bytes (responses T) ++ s ++ bytes (responses .PROMPT)) := by
  simp [sendResponse, strlen_append_nul s t hs]

/-- The comparisons of `dispatch`, for a command buffer that holds the string `s`. -/
theorem dispatch_tests (s t : List Nat) (hs : 0 ∉ s) :
    strncmp0 (s ++ 0 :: t) (cLit "HELP") 4 = some (decide (s.take 4 = bytes "HELP")) ∧
    strncmp0 (s ++ 0 :: t) (cLit "DROP") 4 = some (decide (s.take 4 = bytes "DROP")) ∧
    strncmp0 (s ++ 0 :: t) (cLit "GET") 3 = some (decide (s.take 3 = bytes "GET")) ∧
    strncmp0 (s ++ 0 :: t) (cLit "LOOK") 4 = some (decide (s.take 4 = bytes "LOOK")) ∧
    strncmp0 (s ++ 0 :: t) (cLit "PUT") 3 = some (decide (s.take 3 = bytes "PUT")) ∧
    strncmp0 (s ++ 0 :: t) (cLit "QUIT") 4 = some (decide (s.take 4 = bytes "QUIT")) := by
  refine ⟨?_, ?_, ?_, ?_, ?_, ?_⟩ <;>
    exact strncmp0_cLit s t hs _ (by decide) _

theorem dispatch_unknown (m : Mailbox) (s t tmpReq : List Nat) (hs : 0 ∉ s)
    (h1 : s ≠ bytes "HELP") (h2 : s ≠ bytes "DROP") (h3 : s ≠ bytes "GET")
    (h4 : s ≠ bytes "LOOK") (h5 : s.take 3 ≠ bytes "PUT") :
    dispatch m (s ++ 0 :: t) s.length tmpReq =
      some (m, bytes "!NOT SUPPORTED\n> ") := by
  obtain ⟨e1, e2, e3, e4, e5, -⟩ := dispatch_tests s t hs
  have c1 := exact_match s (bytes "HELP")
  have c2 := exact_match s (bytes "DROP")
  have c3 := exact_match s (bytes "GET")
  have c4 := exact_match s (bytes "LOOK")
  have l4 : (bytes "HELP").length = 4 := by decide
  have l4d : (bytes "DROP").length = 4 := by decide
  have l3 : (bytes "GET").length = 3 := by decide
  have l4l : (bytes "LOOK").length = 4 := by decide
  rw [l4] at c1; rw [l4d] at c2; rw [l3] at c3; rw [l4l] at c4
  unfold dispatch
  simp only [e1, e2, e3, e4, e5, c1, c2, c3, c4, h1, h2, h3, h4, h5, Option.bind_eq_bind,
    Option.some_bind, decide_False, Bool.false_eq_true, if_false, sendResponse_plain,
    Option.pure_def]
  rfl

set_option maxRecDepth 100000 in
theorem memcpy_default :
    memcpy zeroed (cLit (responses .NO_MESSAGE)) (bytes (responses .NO_MESSAGE)).length =
      some (padded (bytes "<no message stored>")) := by decide

theorem sendResponse_padded (T : respType) (s : List Nat) (hs : 0 ∉ s)
    (hl : s.length ≤ 255) :
    sendResponse T 0 (padded s) = some (bytes (responses T) ++ s ++ bytes (responses .PROMPT)) := by
  rw [padded_eq s hl]
  exact sendResponse_payload T s hs _

/-- The copy `GET` and `LOOK` make of an occupied mailbox's content (lines 272-278 and
304-310). -/
theorem copy_content (c u : List Nat) (hc : 0 ∉ c) (hlen : (c ++ 0 :: u).length = 256) :
    strlen (c ++ 0 :: u) = some c.length ∧
    strncpy zeroed (c ++ 0 :: u) c.length = some (padded c) ∧
    (padded c).set 255 0 = padded c ∧ c.length ≤ 255 := by
  have hl : c.length ≤ 255 := by
    simp only [List.length_append, List.length_cons] at hlen
    omega
  refine ⟨strlen_append_nul c u hc, ?_, padded_set c hl, hl⟩
  have h1 : c.length ≤ zeroed.length := by rw [zeroed_length]; omega
  rw [strncpy, if_pos h1, strncpyBytes_append_nul c u hc, Option.map_some',
    append_zeroed_drop]

theorem dispatch_HELP (m : Mailbox) (t tmpReq : List Nat) :
    dispatch m (bytes "HELP" ++ 0 :: t) 4 tmpReq =
      some (m, bytes (responses .HELP) ++ bytes "\n> ") := by
  obtain ⟨e1, -⟩ := dispatch_tests (bytes "HELP") t (by decide)
  have c1 : decide ((bytes "HELP").take 4 = bytes "HELP") = true := by decide
  unfold dispatch
  simp only [e1, c1, Option.bind_eq_bind, Option.some_bind, sendResponse_plain,
    Option.pure_def]
  rfl

theorem dispatch_DROP (m : Mailbox) (t tmpReq : List Nat) :
    dispatch m (bytes "DROP" ++ 0 :: t) 4 tmpReq =
      some (if m.empty ≠ 0 then { cubby := zeroed, empty := 0 } else m,
        bytes "!DROP: ok\n> ") := by
  obtain ⟨e1, e2, -⟩ := dispatch_tests (bytes "DROP") t (by decide)
  have c1 : decide ((bytes "DROP").take 4 = bytes "HELP") = false := by decide
  have c2 : decide ((bytes "DROP").take 4 = bytes "DROP") = true := by decide
  unfold dispatch
  simp only [e1, e2, c1, c2, Option.bind_eq_bind, Option.some_bind, sendResponse_plain,
    Option.pure_def]
  rfl

theorem dispatch_GET_empty (m : Mailbox) (t tmpReq : List Nat) (he : m.empty = 0) :
    dispatch m (bytes "GET" ++ 0 :: t) 3 tmpReq =
      some (m, bytes "!GET: <no message stored>\n> ") := by
  obtain ⟨e1, e2, e3, -⟩ := dispatch_tests (bytes "GET") t (by decide)
  have c1 : decide ((bytes "GET").take 4 = bytes "HELP") = false := by decide
  have c2 : decide ((bytes "GET").take 4 = bytes "DROP") = false := by decide
  have c3 : decide ((bytes "GET").take 3 = bytes "GET") = true := by decide
  have hs := sendResponse_padded .GET (bytes "<no message stored>") (by decide) (by decide)
  unfold dispatch
  simp only [e1, e2, e3, c1, c2, c3, he, memcpy_default, hs, Option.bind_eq_bind,
    Option.some_bind, Option.pure_def, ne_eq, not_false_eq_true, not_true_eq_false, if_true,
    if_false, Bool.true_and, Bool.false_and, beq_self_eq_true, Bool.false_eq_true]
  rfl

theorem dispatch_GET_full (m : Mailbox) (t tmpReq c u : List Nat) (he : m.empty ≠ 0)
    (hcub : m.cubby = c ++ 0 :: u) (hc : 0 ∉ c) (hlen : m.cubby.length = 256) :
    dispatch m (bytes "GET" ++ 0 :: t) 3 tmpReq =
      some ({ cubby := zeroed, empty := 0 }, bytes "!GET: " ++ c ++ bytes "\n> ") := by
  obtain ⟨e1, e2, e3, -⟩ := dispatch_tests (bytes "GET") t (by decide)
  have c1 : decide ((bytes "GET").take 4 = bytes "HELP") = false := by decide
  have c2 : decide ((bytes "GET").take 4 = bytes "DROP") = false := by decide
  have c3 : decide ((bytes "GET").take 3 = bytes "GET") = true := by decide
  rw [hcub] at hlen
  obtain ⟨k1, k2, k3, k4⟩ := copy_content c u hc hlen
  have hs := sendResponse_padded .GET c hc k4
  unfold dispatch
  simp only [e1, e2, e3, c1, c2, c3, he, hcub, k1, k2, k3, memcpy_default, hs,
    Option.bind_eq_bind, Option.some_bind, Option.pure_def, ne_eq, not_false_eq_true,
    not_true_eq_false, if_true, if_false, Bool.true_and, Bool.false_and, beq_self_eq_true,
    Bool.false_eq_true]
  rfl

theorem dispatch_LOOK_empty (m : Mailbox) (t tmpReq : List Nat) (he : m.empty = 0) :
    dispatch m (bytes "LOOK" ++ 0 :: t) 4 tmpReq =
      some (m, bytes "!LOOK: <no message stored>\n> ") := by
  obtain ⟨e1, e2, e3, e4, -⟩ := dispatch_tests (bytes "LOOK") t (by decide)
  have c1 : decide ((bytes "LOOK").take 4 = bytes "HELP") = false := by decide
  have c2 : decide ((bytes "LOOK").take 4 = bytes "DROP") = false := by decide
  have c3 : decide ((bytes "LOOK").take 3 = bytes "GET") = false := by decide
  have c4 : decide ((bytes "LOOK").take 4 = bytes "LOOK") = true := by decide
  have hs := sendResponse_padded .LOOK (bytes "<no message stored>") (by decide) (by decide)
  unfold dispatch
  simp only [e1, e2, e3, e4, c1, c2, c3, c4, he, memcpy_default, hs, Option.bind_eq_bind,
    Option.some_bind, Option.pure_def, ne_eq, not_false_eq_true, not_true_eq_false, if_true,
    if_false, Bool.true_and, Bool.false_and, beq_self_eq_true, Bool.false_eq_true]
  rfl

theorem dispatch_LOOK_full (m : Mailbox) (t tmpReq c u : List Nat) (he : m.empty ≠ 0)
    (hcub : m.cubby = c ++ 0 :: u) (hc : 0 ∉ c) (hlen : m.cubby.length = 256) :
    dispatch m (bytes "LOOK" ++ 0 :: t) 4 tmpReq =
      some (m, bytes "!LOOK: " ++ c ++ bytes "\n> ") := by
  obtain ⟨e1, e2, e3, e4, -⟩ := dispatch_tests (bytes "LOOK") t (by decide)
  have c1 : decide ((bytes "LOOK").take 4 = bytes "HELP") = false := by decide
  have c2 : decide ((bytes "LOOK").take 4 = bytes "DROP") = false := by decide
  have c3 : decide ((bytes "LOOK").take 3 = bytes "GET") = false := by decide
  have c4 : decide ((bytes "LOOK").take 4 = bytes "LOOK") = true := by decide
  rw [hcub] at hlen
  obtain ⟨k1, k2, k3, k4⟩ := copy_content c u hc hlen
  have hs := sendResponse_padded .LOOK c hc k4
  unfold dispatch
  simp only [e1, e2, e3, e4, c1, c2, c3, c4, he, hcub, k1, k2, k3, memcpy_default, hs,
    Option.bind_eq_bind, Option.some_bind, Option.pure_def, ne_eq, not_false_eq_true,
    not_true_eq_false, if_true, if_false, Bool.true_and, Bool.false_and, beq_self_eq_true,
    Bool.false_eq_true]
  rfl

theorem dispatch_PUT (m : Mailbox) (s t tmpReq w : List Nat) (hs : 0 ∉ s)
    (h3 : s.take 3 = bytes "PUT") (hex : extractPayload tmpReq = some (padded w))
    (hw : 0 ∉ w) (hwl : w.length ≤ 255) :
    dispatch m (s ++ 0 :: t) s.length tmpReq =
      some ({ cubby := padded w, empty := 1 }, bytes "!PUT: ok\n> ") := by
  obtain ⟨e1, e2, e3, e4, e5, -⟩ := dispatch_tests s t hs
  have t3 : ∀ k : List Nat, s.take 4 = k → k.take 3 = bytes "PUT" := by
    intro k hk
    rw [← hk, List.take_take, ← h3]
    rfl
  have c1 : decide (s.take 4 = bytes "HELP") = false :=
    decide_eq_false fun h => absurd (t3 _ h) (by decide)
  have c2 : decide (s.take 4 = bytes "DROP") = false :=
    decide_eq_false fun h => absurd (t3 _ h) (by decide)
  have c3 : decide (s.take 3 = bytes "GET") = false :=
    decide_eq_false fun h => absurd (h3.symm.trans h) (by decide)
  have c4 : decide (s.take 4 = bytes "LOOK") = false :=
    decide_eq_false fun h => absurd (t3 _ h) (by decide)
  have c5 : decide (s.take 3 = bytes "PUT") = true := decide_eq_true h3
  have hp := padded_eq w hwl
  have hlen : (w ++ 0 :: List.replicate (255 - w.length) 0).length = 256 := by
    simp only [List.length_append, List.length_cons, List.length_replicate]
    omega
  obtain ⟨k1, k2, k3, -⟩ := copy_content w _ hw hlen
  rw [← hp] at k1 k2
  unfold dispatch
  simp only [e1, e2, e3, e4, e5, c1, c2, c3, c4, c5, hex, k1, k2, k3, sendResponse_plain,
    Option.bind_eq_bind, Option.some_bind, Option.pure_def, if_true, if_false,
    Bool.false_and, Bool.false_eq_true]
  rfl

theorem getCommand_line (r : List Nat) (h0 : 0 ∉ r) (hl : r.length ≤ 255) :
    getCommand r = some (padded ((dropEol r).map toupper), padded r) := by
  have h1 : recv zeroed r = padded r := recv_zeroed r (by omega)
  unfold getCommand
  simp only [h1]
  rw [padded_eq r hl, getCommandLoop_append_nul r _ h0, Option.map_some',
    append_zeroed_drop]

theorem extractPayload_line (r : List Nat) (h0 : 0 ∉ r) (hl : r.length ≤ 255) :
    extractPayload (padded r) = some (padded (dropEol (r.drop 4))) := by
  have hd : (padded r).drop 4 =
      r.drop 4 ++ 0 :: List.replicate (251 - (r.drop 4).length) 0 := by
    rw [padded, List.drop_append_eq_append_drop, List.drop_replicate]
    have : MAX_STRING - r.length - (4 - r.length) =
        (251 - (r.drop 4).length) + 1 := by
      simp only [List.length_drop, MAX_STRING]
      omega
    rw [this, List.replicate_succ]
  have h04 : 0 ∉ r.drop 4 := fun h => h0 (List.mem_of_mem_drop h)
  unfold extractPayload
  simp only []
  rw [hd, extractPayloadLoop_append_nul _ _ h04, Option.map_some', append_zeroed_drop]

theorem strlen_of_cstr {buf s : List Nat} (h : cstr buf = some s) :
    strlen buf = some s.length := by
  obtain ⟨t, rfl, h0⟩ := cstr_eq_some h
  exact strlen_append_nul s t h0

theorem cstr_padded (s : List Nat) (hs : 0 ∉ s) (hl : s.length ≤ 255) :
    cstr (padded s) = some s := by
  rw [padded_eq s hl]
  exact cstr_append_nul s _ hs

theorem whileLoop_eq (m : Mailbox) (command : List Nat) (length : Nat) (tmpReq : List Nat)
    (reads : List (List Nat)) (sent : List Nat) :
    whileLoop m command length tmpReq reads sent =
      (strncmp0 command (cLit "QUIT") 4).bind fun isQuit =>
      if !isQuit || length != 4 then
        (dispatch m command length tmpReq).bind fun r => reRead r.1 reads (sent ++ r.2)
      else
        (sendResponse .QUIT 1 zeroed).bind fun out =>
        some { box := m, sent := sent ++ out, closed := true } := by
  cases reads <;> rfl

/-- The loop test (line 229), for a command buffer that holds the string `s`. -/
theorem loop_test (s t : List Nat) (hs : 0 ∉ s) :
    strncmp0 (s ++ 0 :: t) (cLit "QUIT") 4 = some (decide (s.take 4 = bytes "QUIT")) ∧
    ((!decide (s.take 4 = bytes "QUIT") || s.length != 4) = !decide (s = bytes "QUIT")) := by
  refine ⟨(dispatch_tests s t hs).2.2.2.2.2, ?_⟩
  have h := exact_match s (bytes "QUIT")
  have l4 : (bytes "QUIT").length = 4 := by decide
  rw [l4] at h
  rw [← h]
  cases decide (s.take 4 = bytes "QUIT") <;> cases hb : (s.length == 4) <;> simp [bne, hb]

/-- One pass through the loop for a command that is not `QUIT`. -/
theorem whileLoop_pass (m m1 : Mailbox) (s t tmpReq out : List Nat) (hs : 0 ∉ s)
    (hq : s ≠ bytes "QUIT") (hd : dispatch m (s ++ 0 :: t) s.length tmpReq = some (m1, out))
    (reads : List (List Nat)) (sent : List Nat) :
    whileLoop m (s ++ 0 :: t) s.length tmpReq reads sent = reRead m1 reads (sent ++ out) := by
  obtain ⟨e, c⟩ := loop_test s t hs
  rw [whileLoop_eq, e, Option.some_bind, c, hd]
  simp [hq]

/-- The loop is left on the command `QUIT`. -/
theorem whileLoop_quit (m : Mailbox) (t tmpReq : List Nat) (reads : List (List Nat))
    (sent : List Nat) :
    whileLoop m (bytes "QUIT" ++ 0 :: t) 4 tmpReq reads sent =
      some { box := m, sent := sent ++ bytes "!QUIT: ok\n> ", closed := true } := by
  obtain ⟨e, c⟩ := loop_test (bytes "QUIT") t (by decide)
  have l4 : (bytes "QUIT").length = 4 := by decide
  rw [l4] at c
  rw [whileLoop_eq, e, Option.some_bind, c, sendResponse_plain]
  simp
  rfl

/-- A re-read of a non-empty command other than `QUIT` makes one pass through the loop. -/
theorem reRead_pass (m m1 : Mailbox) (arrived req tmpReq s out : List Nat)
    (hg : getCommand arrived = some (req, tmpReq)) (hc : cstr req = some s) (hne : s ≠ [])
    (hq : s ≠ bytes "QUIT") (hd : dispatch m req s.length tmpReq = some (m1, out))
    (rest : List (List Nat)) (sent : List Nat) :
    reRead m (arrived :: rest) sent = reRead m1 rest (sent ++ out) := by
  obtain ⟨t, rfl, h0⟩ := cstr_eq_some hc
  have hl : s.length ≠ 0 := fun h => hne (List.length_eq_zero.1 h)
  rw [reRead, hg, Option.some_bind]
  simp only [strlen_append_nul s t h0, Option.some_bind, hl, if_false]
  exact whileLoop_pass m m1 s t tmpReq out h0 hq hd rest sent

/-- The first read of a command other than `QUIT` makes one pass through the loop. -/
theorem handleRequests_pass (m m1 : Mailbox) (arrived req tmpReq s out : List Nat)
    (hg : getCommand arrived = some (req, tmpReq)) (hc : cstr req = some s)
    (hq : s ≠ bytes "QUIT") (hd : dispatch m req s.length tmpReq = some (m1, out))
    (rest : List (List Nat)) :
    handleRequests m (arrived :: rest) =
      reRead m1 rest (bytes (responses .WELCOME) ++ bytes "\n> " ++ out) := by
  obtain ⟨t, rfl, h0⟩ := cstr_eq_some hc
  rw [handleRequests, sendResponse_plain, Option.some_bind]
  simp only [hg, Option.some_bind, strlen_append_nul s t h0]
  exact whileLoop_pass m m1 s t tmpReq out h0 hq hd rest _

theorem Pass.at_reRead {m m1 : Mailbox} {arrived out : List Nat} (h : Pass m arrived m1 out)
    (rest : List (List Nat)) (sent : List Nat) :
    reRead m (arrived :: rest) sent = reRead m1 rest (sent ++ out) := by
  obtain ⟨req, tmpReq, s, hg, hc, hne, hq, hd⟩ := h
  exact reRead_pass m m1 arrived req tmpReq s out hg hc hne hq hd rest sent

theorem Pass.at_first {m m1 : Mailbox} {arrived out : List Nat} (h : Pass m arrived m1 out)
    (rest : List (List Nat)) :
    handleRequests m (arrived :: rest) =
      reRead m1 rest (bytes (responses .WELCOME) ++ bytes "\n> " ++ out) := by
  obtain ⟨req, tmpReq, s, hg, hc, _, hq, hd⟩ := h
  exact handleRequests_pass m m1 arrived req tmpReq s out hg hc hq hd rest

theorem plain_of_toupper {c : Nat} (h : plain (toupper c)) : plain c := by
  unfold plain toupper at *
  split at h <;> omega

theorem line_facts (b e : List Nat) (hb : ∀ c ∈ b, plain c) (he : ∀ c ∈ e, eol c) :
    0 ∉ b ++ e ∧ dropEol (b ++ e) = b := by
  constructor
  · intro h
    rcases List.mem_append.1 h with h | h
    · exact (hb 0 h).1 rfl
    · rcases he 0 h with h | h <;> omega
  · have h1 : dropEol b = b := by
      apply List.filter_eq_self.2
      intro c hc
      have := hb c hc
      simp [this.2.1, this.2.2]
    have h2 : dropEol e = [] := by
      apply List.filter_eq_nil_iff.2
      intro c hc
      rcases he c hc with h | h <;> simp [h]
    rw [dropEol, List.filter_append]
    change dropEol b ++ dropEol e = b
    rw [h1, h2, List.append_nil]

theorem plain_of_map_toupper {w k : List Nat} (hw : w.map toupper = k)
    (hk : ∀ c ∈ k, plain c) : ∀ c ∈ w, plain c := by
  intro c hc
  apply plain_of_toupper
  apply hk
  rw [← hw]
  exact List.mem_map_of_mem _ hc

/-- What `getCommand` returns for a line: plain bytes `b` followed by line-ending
bytes `e`, at most 255 bytes in all. -/
theorem getCommand_plain_line (b e : List Nat) (hb : ∀ c ∈ b, plain c)
    (he : ∀ c ∈ e, eol c) (hl : (b ++ e).length ≤ 255) :
    getCommand (b ++ e) = some (padded (b.map toupper), padded (b ++ e)) ∧
    cstr (padded (b.map toupper)) = some (b.map toupper) := by
  obtain ⟨h0, hd⟩ := line_facts b e hb he
  have hg := getCommand_line (b ++ e) h0 hl
  rw [hd] at hg
  refine ⟨hg, cstr_padded _ ?_ ?_⟩
  · have := zero_not_mem_upper h0
    rwa [hd] at this
  · simp only [List.length_map]
    simp only [List.length_append] at hl
    omega

theorem pass_of_line (m m1 : Mailbox) (b e out : List Nat) (hb : ∀ c ∈ b, plain c)
    (he : ∀ c ∈ e, eol c) (hl : (b ++ e).length ≤ 255) (hne : b ≠ [])
    (hq : b.map toupper ≠ bytes "QUIT")
    (hd : dispatch m (padded (b.map toupper)) (b.map toupper).length (padded (b ++ e)) =
      some (m1, out)) :
    Pass m (b ++ e) m1 out := by
  obtain ⟨hg, hc⟩ := getCommand_plain_line b e hb he hl
  exact ⟨_, _, _, hg, hc, by simpa using hne, hq, hd⟩

theorem padded_split (s : List Nat) (hl : s.length ≤ 255) :
    ∃ t, padded s = s ++ 0 :: t := ⟨_, padded_eq s hl⟩

/-- A `PUT` line: the keyword in any letter case, a space, the message and line-ending
bytes, at most 255 bytes in all. -/
theorem pass_PUT_line (m : Mailbox) (w p e : List Nat) (hw : w.map toupper = bytes "PUT")
    (hp : ∀ c ∈ p, plain c) (he : ∀ c ∈ e, eol c)
    (hl : (w ++ 32 :: p ++ e).length ≤ 255) :
    Pass m (w ++ 32 :: p ++ e) { cubby := padded p, empty := 1 } (bytes "!PUT: ok\n> ") := by
  have hwl : w.length = 3 := by
    have := congrArg List.length hw
    simpa using this
  have hb : ∀ c ∈ w ++ 32 :: p, plain c := by
    intro c hc
    rcases List.mem_append.1 hc with h | h
    · exact plain_of_map_toupper hw (by decide) c h
    · rcases List.mem_cons.1 h with h | h
      · subst h; decide
      · exact hp c h
  have hlen := hl
  simp only [List.length_append, List.length_cons] at hlen
  have e1 : w ++ 32 :: p ++ e = (w ++ 32 :: p) ++ e := rfl
  obtain ⟨h0, -⟩ := line_facts _ e hb he
  have hs0 : 0 ∉ (w ++ 32 :: p).map toupper := by
    intro hm
    obtain ⟨c, hc, hz⟩ := List.mem_map.1 hm
    exact toupper_ne_zero (hb c hc).1 hz
  have hsl : ((w ++ 32 :: p).map toupper).length ≤ 255 := by
    simp only [List.length_map, List.length_append, List.length_cons]
    omega
  have h3 : ((w ++ 32 :: p).map toupper).take 3 = bytes "PUT" := by
    rw [List.map_append, hw]
    rfl
  have hx : extractPayload (padded (w ++ 32 :: p ++ e)) = some (padded p) := by
    rw [extractPayload_line _ h0 hl]
    have hd4 : (w ++ 32 :: p ++ e).drop 4 = p ++ e := by
      match w, hwl with
      | [a, b, c], _ => rfl
    rw [hd4, (line_facts p e hp he).2]
  have hpl : p.length ≤ 255 := by omega
  have hp0 : 0 ∉ p := fun h => (hp 0 h).1 rfl
  rw [e1]
  apply pass_of_line m _ _ e _ hb he hl
  · intro h
    have := congrArg List.length h
    simp at this
  · intro h
    have := congrArg (List.take 3) h
    rw [h3] at this
    revert this
    decide
  · obtain ⟨t, ht⟩ := padded_split _ hsl
    rw [ht]
    exact dispatch_PUT m _ t _ p hs0 h3 hx hp0 hpl

/-- A line that holds one of the keywords handled by exact comparison, in any letter
case, followed by line-ending bytes, at most 255 bytes in all. -/
theorem getCommand_keyword_line (k : String) (hk : ∀ c ∈ bytes k, plain c) (w e : List Nat)
    (hw : w.map toupper = bytes k) (he : ∀ c ∈ e, eol c) (hl : (w ++ e).length ≤ 255) :
    ∃ t, getCommand (w ++ e) = some (bytes k ++ 0 :: t, padded (w ++ e)) := by
  have hb := plain_of_map_toupper hw hk
  obtain ⟨hg, -⟩ := getCommand_plain_line w e hb he hl
  rw [hw] at hg
  have hkl : (bytes k).length ≤ 255 := by
    rw [← hw]
    simp only [List.length_map]
    simp only [List.length_append] at hl
    omega
  obtain ⟨t, ht⟩ := padded_split _ hkl
  exact ⟨t, by rw [hg, ht]⟩

/-- A keyword line handled by exact comparison makes the pass its command makes. -/
theorem pass_keyword (k : String) (hk : ∀ c ∈ bytes k, plain c) (hkne : bytes k ≠ [])
    (hkq : bytes k ≠ bytes "QUIT") (m m1 : Mailbox) (out : List Nat)
    (hd : ∀ t tmpReq, dispatch m (bytes k ++ 0 :: t) (bytes k).length tmpReq = some (m1, out))
    (w e : List Nat) (hw : w.map toupper = bytes k) (he : ∀ c ∈ e, eol c)
    (hl : (w ++ e).length ≤ 255) :
    Pass m (w ++ e) m1 out := by
  obtain ⟨t, hg⟩ := getCommand_keyword_line k hk w e hw he hl
  have h0 : 0 ∉ bytes k := fun h => (hk 0 h).1 rfl
  exact ⟨_, _, bytes k, hg, cstr_append_nul _ t h0, hkne, hkq, hd t _⟩

theorem pass_exact (k : String) (hk : ∀ c ∈ bytes k, plain c) (hkne : bytes k ≠ [])
    (hkq : bytes k ≠ bytes "QUIT") (hku : (bytes k).map toupper = bytes k)
    (hkl : (bytes k).length ≤ 255) (m m1 : Mailbox) (out : List Nat)
    (hd : ∀ t tmpReq, dispatch m (bytes k ++ 0 :: t) (bytes k).length tmpReq = some (m1, out)) :
    Pass m (bytes k) m1 out := by
  have h := pass_keyword k hk hkne hkq m m1 out hd (bytes k) [] hku (by simp)
    (by simpa using hkl)
  simpa using h

theorem pass_GET_empty (m : Mailbox) (he : m.empty = 0) :
    Pass m (bytes "GET") m (bytes "!GET: <no message stored>\n> ") :=
  pass_exact "GET" (by decide) (by decide) (by decide) (by decide) (by decide) m m _
    fun t tmpReq => dispatch_GET_empty m t tmpReq he

theorem pass_LOOK_empty (m : Mailbox) (he : m.empty = 0) :
    Pass m (bytes "LOOK") m (bytes "!LOOK: <no message stored>\n> ") :=
  pass_exact "LOOK" (by decide) (by decide) (by decide) (by decide) (by decide) m m _
    fun t tmpReq => dispatch_LOOK_empty m t tmpReq he

theorem pass_GET_full (m : Mailbox) (c u : List Nat) (he : m.empty ≠ 0)
    (hcub : m.cubby = c ++ 0 :: u) (hc : 0 ∉ c) (hlen : m.cubby.length = 256) :
    Pass m (bytes "GET") initMailbox (bytes "!GET: " ++ c ++ bytes "\n> ") :=
  pass_exact "GET" (by decide) (by decide) (by decide) (by decide) (by decide) m _ _
    fun t tmpReq => dispatch_GET_full m t tmpReq c u he hcub hc hlen

theorem pass_LOOK_full (m : Mailbox) (c u : List Nat) (he : m.empty ≠ 0)
    (hcub : m.cubby = c ++ 0 :: u) (hc : 0 ∉ c) (hlen : m.cubby.length = 256) :
    Pass m (bytes "LOOK") m (bytes "!LOOK: " ++ c ++ bytes "\n> ") :=
  pass_exact "LOOK" (by decide) (by decide) (by decide) (by decide) (by decide) m _ _
    fun t tmpReq => dispatch_LOOK_full m t tmpReq c u he hcub hc hlen

theorem pass_DROP (m : Mailbox) :
    Pass m (bytes "DROP") (if m.empty ≠ 0 then initMailbox else m) (bytes "!DROP: ok\n> ") :=
  pass_exact "DROP" (by decide) (by decide) (by decide) (by decide) (by decide) m _ _
    fun t tmpReq => dispatch_DROP m t tmpReq

theorem padded_length (s : List Nat) (hl : s.length ≤ 256) : (padded s).length = 256 := by
  simp only [padded, List.length_append, List.length_replicate, MAX_STRING]
  omega

/-- A mailbox that holds the message `p`: `GET` and `LOOK` on it. -/
theorem pass_on_stored (p : List Nat) (hp : 0 ∉ p) (hl : p.length ≤ 255) :
    Pass { cubby := padded p, empty := 1 } (bytes "GET") initMailbox
      (bytes "!GET: " ++ p ++ bytes "\n> ") ∧
    Pass { cubby := padded p, empty := 1 } (bytes "LOOK") { cubby := padded p, empty := 1 }
      (bytes "!LOOK: " ++ p ++ bytes "\n> ") := by
  have hlen : (padded p).length = 256 := padded_length p (by omega)
  exact ⟨pass_GET_full _ p _ (by simp) (padded_eq p hl) hp hlen,
    pass_LOOK_full _ p _ (by simp) (padded_eq p hl) hp hlen⟩

theorem zero_not_mem_of_plain {p : List Nat} (hp : ∀ c ∈ p, plain c) : 0 ∉ p :=
  fun h => (hp 0 h).1 rfl

/-- The line `"PUT " ++ p` for a message of at most 251 plain bytes. -/
theorem pass_PUT (m : Mailbox) (p : List Nat) (hp : ∀ c ∈ p, plain c) (hl : p.length ≤ 251) :
    Pass m (bytes "PUT " ++ p) { cubby := padded p, empty := 1 } (bytes "!PUT: ok\n> ") := by
  have h := pass_PUT_line m (bytes "PUT") p [] (by decide) hp (by simp)
    (by simp only [List.length_append, List.length_cons, List.length_nil]
        have : (bytes "PUT").length = 3 := by decide
        omega)
  simpa using h

theorem reRead_looks (x : List Nat) (hx : 0 ∉ x) (hl : x.length ≤ 255) (n : Nat)
    (tail : List (List Nat)) (sent : List Nat) :
    reRead { cubby := padded x, empty := 1 } (List.replicate n (bytes "LOOK") ++ tail) sent =
      reRead { cubby := padded x, empty := 1 } tail
        (sent ++ (List.replicate n (bytes "!LOOK: " ++ x ++ bytes "\n> ")).flatten) := by
  induction n generalizing sent with
  | zero => simp
  | succ n ih =>
    rw [List.replicate_succ, List.cons_append, (pass_on_stored x hx hl).2.at_reRead, ih,
      List.replicate_succ, List.flatten_cons, List.append_assoc]

theorem Result.prepend_prepend (a b : List Nat) (r : Result) :
    Result.prepend a (Result.prepend b r) = Result.prepend (a ++ b) r := by
  simp [Result.prepend, List.append_assoc]

theorem dispatch_tmpReq (m : Mailbox) (s t : List Nat) (n : Nat) (tmp1 tmp2 : List Nat)
    (hs : 0 ∉ s) (h : s.take 3 ≠ bytes "PUT") :
    dispatch m (s ++ 0 :: t) n tmp1 = dispatch m (s ++ 0 :: t) n tmp2 := by
  obtain ⟨-, -, -, -, e5, -⟩ := dispatch_tests s t hs
  have c5 : decide (s.take 3 = bytes "PUT") = false := decide_eq_false h
  unfold dispatch
  simp only [e5, c5, Option.bind_eq_bind, Option.some_bind, Bool.false_eq_true, if_false]

theorem whileLoop_tmpReq (m : Mailbox) (s t : List Nat) (n : Nat) (tmp1 tmp2 : List Nat)
    (hs : 0 ∉ s) (h : s.take 3 ≠ bytes "PUT") (reads : List (List Nat)) (sent : List Nat) :
    whileLoop m (s ++ 0 :: t) n tmp1 reads sent = whileLoop m (s ++ 0 :: t) n tmp2 reads sent := by
  rw [whileLoop_eq, whileLoop_eq, dispatch_tmpReq m s t n tmp1 tmp2 hs h]

theorem whileLoop_prepend_of (reads : List (List Nat))
    (h : ∀ m sent, reRead m reads sent = (reRead m reads []).map (Result.prepend sent))
    (m : Mailbox) (command : List Nat) (length : Nat) (tmpReq sent : List Nat) :
    whileLoop m command length tmpReq reads sent =
      (whileLoop m command length tmpReq reads []).map (Result.prepend sent) := by
  rw [whileLoop_eq, whileLoop_eq]
  cases strncmp0 command (cLit "QUIT") 4 with
  | none => rfl
  | some isQuit =>
    simp only [Option.some_bind]
    split
    · cases dispatch m command length tmpReq with
      | none => rfl
      | some r =>
        simp only [Option.some_bind, List.nil_append]
        rw [h r.1 (sent ++ r.2), h r.1 r.2, Option.map_map]
        congr 1
        funext x
        exact (Result.prepend_prepend sent r.2 x).symm
    · cases sendResponse .QUIT 1 zeroed with
      | none => rfl
      | some out => simp [Result.prepend]

theorem reRead_prepend (reads : List (List Nat)) :
    ∀ m sent, reRead m reads sent = (reRead m reads []).map (Result.prepend sent) := by
  induction reads with
  | nil =>
    intro m sent
    simp [reRead, Result.prepend]
  | cons a rest ih =>
    intro m sent
    have hw := whileLoop_prepend_of rest ih
    simp only [reRead]
    cases getCommand a with
    | none => rfl
    | some c =>
      simp only [Option.some_bind]
      cases strlen c.1 with
      | none => rfl
      | some n =>
        simp only [Option.some_bind]
        split
        · exact hw _ _ _ _ _
        · exact hw _ _ _ _ _

theorem getCommand_eq_of_normalized {arrived s : List Nat} (h : normalized arrived = some s) :
    ∃ t tmpReq, getCommand arrived = some (s ++ 0 :: t, tmpReq) ∧ 0 ∉ s := by
  unfold normalized at h
  cases hg : getCommand arrived with
  | none => simp [hg] at h
  | some c =>
    rw [hg, Option.some_bind] at h
    obtain ⟨t, ht, h0⟩ := cstr_eq_some h
    refine ⟨t, c.2, ?_, h0⟩
    rw [← ht]

theorem pass_unknown (m : Mailbox) (arrived s : List Nat) (hn : normalized arrived = some s)
    (hne : s ≠ []) (h1 : s ≠ bytes "HELP") (h2 : s ≠ bytes "DROP") (h3 : s ≠ bytes "GET")
    (h4 : s ≠ bytes "LOOK") (h5 : s ≠ bytes "QUIT") (h6 : s.take 3 ≠ bytes "PUT") :
    Pass m arrived m (bytes "!NOT SUPPORTED\n> ") := by
  obtain ⟨t, tmpReq, hg, h0⟩ := getCommand_eq_of_normalized hn
  exact ⟨_, _, s, hg, cstr_append_nul s t h0, hne, h5,
    dispatch_unknown m s t tmpReq h0 h1 h2 h3 h4 h6⟩

theorem normalized_line (r : List Nat) (h0 : 0 ∉ r) (hl : r.length ≤ 255) :
    normalized r = some ((dropEol r).map toupper) := by
  have hlen : ((dropEol r).map toupper).length ≤ 255 := by
    rw [List.length_map]
    exact le_trans (dropEol_length_le r) hl
  rw [normalized, getCommand_line r h0 hl, Option.some_bind]
  exact cstr_padded _ (zero_not_mem_upper h0) hlen

/-- A line without NUL, of at most 255 bytes, whose normalised text begins with `PUT`:
the bytes from `tmpReq[4]` on are stored, whatever stands in `tmpReq[0..3]`. -/
theorem pass_PUT_any_tail (m : Mailbox) (r : List Nat) (h0 : 0 ∉ r) (hl : r.length ≤ 255)
    (h3 : ((dropEol r).map toupper).take 3 = bytes "PUT") :
    Pass m r { cubby := padded (dropEol (r.drop 4)), empty := 1 } (bytes "!PUT: ok\n> ") := by
  have hs0 := zero_not_mem_upper h0
  have hlen : ((dropEol r).map toupper).length ≤ 255 := by
    rw [List.length_map]
    exact le_trans (dropEol_length_le r) hl
  obtain ⟨t, ht⟩ := padded_split _ hlen
  have hg := getCommand_line r h0 hl
  have hw0 : 0 ∉ dropEol (r.drop 4) :=
    zero_not_mem_dropEol fun h => h0 (List.mem_of_mem_drop h)
  have hwl : (dropEol (r.drop 4)).length ≤ 255 := by
    have h1 := dropEol_length_le (r.drop 4)
    have h2 : (r.drop 4).length ≤ r.length := by
      rw [List.length_drop]
      omega
    omega
  refine ⟨_, _, (dropEol r).map toupper, hg, cstr_padded _ hs0 hlen, ?_, ?_, ?_⟩
  · intro h
    rw [h] at h3
    revert h3
    decide
  · intro h
    rw [h] at h3
    revert h3
    decide
  · rw [ht]
    exact dispatch_PUT m _ t _ _ hs0 h3 (extractPayload_line r h0 hl) hw0 hwl

theorem reRead_empty_command (m : Mailbox) (arrived : List Nat)
    (hn : normalized arrived = some []) (rest : List (List Nat)) (sent : List Nat) :
    reRead m (arrived :: rest) sent =
      some { box := m, sent := sent ++ bytes "!QUIT: ok\n> ", closed := true } := by
  obtain ⟨t, tmpReq, hg, -⟩ := getCommand_eq_of_normalized hn
  rw [reRead, hg, Option.some_bind]
  simp only [List.nil_append, strlen, if_true, Option.some_bind]
  exact whileLoop_quit m [] tmpReq rest sent

theorem reRead_QUIT (m : Mailbox) (arrived : List Nat)
    (hn : normalized arrived = some (bytes "QUIT")) (rest : List (List Nat)) (sent : List Nat) :
    reRead m (arrived :: rest) sent =
      some { box := m, sent := sent ++ bytes "!QUIT: ok\n> ", closed := true } := by
  obtain ⟨t, tmpReq, hg, h0⟩ := getCommand_eq_of_normalized hn
  rw [reRead, hg, Option.some_bind]
  simp only [strlen_append_nul _ t h0, Option.some_bind]
  have : (bytes "QUIT").length = 4 := by decide
  simp only [this]
  exact whileLoop_quit m t tmpReq rest sent

theorem strncpyBytes_length {src : List Nat} {n : Nat} {w : List Nat}
    (h : strncpyBytes src n = some w) : w.length = n := by
  induction n generalizing src w with
  | zero =>
    cases src <;> simp [strncpyBytes] at h <;> simp [h]
  | succ n ih =>
    cases src with
    | nil => simp [strncpyBytes] at h
    | cons c cs =>
      by_cases hc : c = 0
      · simp only [strncpyBytes, hc, if_true, Option.some.injEq] at h
        rw [← h, List.length_replicate]
      · simp only [strncpyBytes, hc, if_false, Option.map_eq_some'] at h
        obtain ⟨v, hv, rfl⟩ := h
        rw [List.length_cons, ih hv]

theorem strncpy_zeroed_length {src : List Nat} {n : Nat} {cub : List Nat}
    (h : strncpy zeroed src n = some cub) : cub.length = 256 := by
  unfold strncpy at h
  split at h
  next hn =>
    simp only [Option.map_eq_some'] at h
    obtain ⟨w, hw, rfl⟩ := h
    rw [zeroed_length] at hn
    rw [List.length_append, strncpyBytes_length hw, List.length_drop, zeroed_length]
    omega
  next => cases h

/-- The mailbox that `dispatch` leaves: the one it found, the initial one, or, after
`PUT`, an occupied one whose content has `MAX_STRING` bytes, the last of them NUL. -/
theorem dispatch_box {m m1 : Mailbox} {command tmpReq out : List Nat} {length : Nat}
    (h : dispatch m command length tmpReq = some (m1, out)) :
    m1 = m ∨ m1 = initMailbox ∨ (m1.empty = 1 ∧ m1.wf) := by
  unfold dispatch at h
  simp only [Option.bind_eq_bind] at h
  have key : ∀ {o : Option (List Nat)} {b : Mailbox},
      (o.bind fun out => pure (b, out)) = some (m1, out) → m1 = b := by
    intro o b hb
    obtain ⟨x, -, hx⟩ := Option.bind_eq_some.1 hb
    simp only [Option.pure_def, Option.some.injEq, Prod.mk.injEq] at hx
    exact hx.1.symm
  obtain ⟨isHelp, -, h⟩ := Option.bind_eq_some.1 h
  by_cases c1 : (isHelp && length == 4) = true
  · rw [if_pos c1] at h
    exact Or.inl (key h)
  rw [if_neg c1] at h
  obtain ⟨isDrop, -, h⟩ := Option.bind_eq_some.1 h
  by_cases c2 : (isDrop && length == 4) = true
  · rw [if_pos c2] at h
    rw [key h]
    by_cases he : m.empty = 0
    · simp [he]
    · simp only [ne_eq, he, not_false_eq_true, if_true]
      exact Or.inr (Or.inl rfl)
  rw [if_neg c2] at h
  obtain ⟨isGet, -, h⟩ := Option.bind_eq_some.1 h
  by_cases c3 : (isGet && length == 3) = true
  · rw [if_pos c3] at h
    obtain ⟨pl, -, h⟩ := Option.bind_eq_some.1 h
    by_cases he : m.empty ≠ 0
    · rw [if_pos he] at h
      obtain ⟨n, -, h⟩ := Option.bind_eq_some.1 h
      obtain ⟨pl2, -, h⟩ := Option.bind_eq_some.1 h
      exact Or.inr (Or.inl (key h))
    · rw [if_neg he] at h
      exact Or.inl (key h)
  rw [if_neg c3] at h
  obtain ⟨isLook, -, h⟩ := Option.bind_eq_some.1 h
  by_cases c4 : (isLook && length == 4) = true
  · rw [if_pos c4] at h
    obtain ⟨pl, -, h⟩ := Option.bind_eq_some.1 h
    by_cases he : m.empty ≠ 0
    · rw [if_pos he] at h
      obtain ⟨n, -, h⟩ := Option.bind_eq_some.1 h
      obtain ⟨pl2, -, h⟩ := Option.bind_eq_some.1 h
      exact Or.inl (key h)
    · rw [if_neg he] at h
      exact Or.inl (key h)
  rw [if_neg c4] at h
  obtain ⟨isPut, -, h⟩ := Option.bind_eq_some.1 h
  by_cases c5 : isPut = true
  · rw [if_pos c5] at h
    obtain ⟨pl, -, h⟩ := Option.bind_eq_some.1 h
    obtain ⟨n, -, h⟩ := Option.bind_eq_some.1 h
    obtain ⟨cub, hcub, h⟩ := Option.bind_eq_some.1 h
    have hl := strncpy_zeroed_length hcub
    refine Or.inr (Or.inr ?_)
    rw [key h]
    refine ⟨rfl, ?_, ?_⟩
    · show (cub.set 255 0).length = MAX_STRING
      rw [List.length_set, hl]
      rfl
    · show 0 ∈ cub.set 255 0
      exact List.mem_set cub 255 (by omega) 0
  · rw [if_neg c5] at h
    exact Or.inl (key h)

set_option maxRecDepth 100000 in
theorem initMailbox_sound : initMailbox.sound := by
  refine ⟨by decide, fun _ => rfl⟩

theorem dispatch_sound {m m1 : Mailbox} {command tmpReq out : List Nat} {length : Nat}
    (h : dispatch m command length tmpReq = some (m1, out)) (hm : m.sound) : m1.sound := by
  rcases dispatch_box h with rfl | rfl | ⟨he, hwf⟩
  · exact hm
  · exact initMailbox_sound
  · exact ⟨hwf, fun h0 => by rw [he] at h0; cases h0⟩

theorem whileLoop_sound_of (reads : List (List Nat))
    (h : ∀ m sent r, reRead m reads sent = some r → m.sound → r.box.sound)
    (m : Mailbox) (command : List Nat) (length : Nat) (tmpReq sent : List Nat) (r : Result)
    (hr : whileLoop m command length tmpReq reads sent = some r) (hm : m.sound) :
    r.box.sound := by
  rw [whileLoop_eq] at hr
  simp only [Option.bind_eq_some] at hr
  obtain ⟨isQuit, -, hr⟩ := hr
  split at hr
  · simp only [Option.bind_eq_some] at hr
    obtain ⟨d, hd, hr⟩ := hr
    have hd1 : dispatch m command length tmpReq = some (d.1, d.2) := hd
    exact h d.1 _ r hr (dispatch_sound hd1 hm)
  · simp only [Option.bind_eq_some] at hr
    obtain ⟨o, -, hr⟩ := hr
    simp only [Option.some.injEq] at hr
    rw [← hr]
    exact hm

theorem reRead_sound (reads : List (List Nat)) :
    ∀ m sent r, reRead m reads sent = some r → m.sound → r.box.sound := by
  induction reads with
  | nil =>
    intro m sent r hr hm
    simp only [reRead, Option.some.injEq] at hr
    rw [← hr]
    exact hm
  | cons a rest ih =>
    intro m sent r hr hm
    have hw := whileLoop_sound_of rest ih
    simp only [reRead, Option.bind_eq_some] at hr
    obtain ⟨c, -, n, -, hr⟩ := hr
    split at hr
    · exact hw _ _ _ _ _ r hr hm
    · exact hw _ _ _ _ _ r hr hm

/-- Every mailbox a connection started on the initial mailbox leaves behind is sound. -/
theorem handleRequests_sound (m : Mailbox) (reads : List (List Nat)) (r : Result)
    (hr : handleRequests m reads = some r) (hm : m.sound) : r.box.sound := by
  unfold handleRequests at hr
  simp only [Option.bind_eq_some] at hr
  obtain ⟨hello, -, hr⟩ := hr
  cases reads with
  | nil =>
    simp only [Option.some.injEq] at hr
    rw [← hr]
    exact hm
  | cons a rest =>
    simp only [Option.bind_eq_some] at hr
    obtain ⟨c, -, n, -, hr⟩ := hr
    exact whileLoop_sound_of rest (reRead_sound rest) _ _ _ _ _ r hr hm

theorem take_pad_split (l : List Nat) :
    ∀ n : Nat, (l.takeWhile fun c => c ≠ 0).length < n →
      ∃ t, l.take n ++ List.replicate (n - (l.take n).length) 0 =
        (l.takeWhile fun c => c ≠ 0) ++ 0 :: t := by
  induction l with
  | nil =>
    intro n hn
    cases n with
    | zero => simp at hn
    | succ n => exact ⟨List.replicate n 0, by simp [List.replicate_succ]⟩
  | cons c cs ih =>
    intro n hn
    cases n with
    | zero => simp at hn
    | succ n =>
      by_cases hc : c = 0
      · subst hc
        exact ⟨cs.take n ++ List.replicate (n - (cs.take n).length) 0,
          by simp [List.takeWhile_cons]⟩
      · have e : ((c :: cs).takeWhile fun c => c ≠ 0) = c :: cs.takeWhile fun c => c ≠ 0 := by
          simp [List.takeWhile_cons, hc]
        rw [e] at hn ⊢
        have hn' : (cs.takeWhile fun c => c ≠ 0).length < n := by
          rw [List.length_cons] at hn
          omega
        obtain ⟨t, ht⟩ := ih n hn'
        refine ⟨t, ?_⟩
        simp only [List.take_succ_cons, List.length_cons, Nat.add_sub_add_right,
          List.cons_append]
        rw [ht]

/-- The receive buffer after `recv`, when at most 255 bytes arrive before a NUL: the
bytes up to the first NUL, then a NUL. -/
theorem recv_split (arrived : List Nat)
    (h : (arrived.takeWhile fun c => c ≠ 0).length ≤ 255) :
    ∃ t, recv zeroed arrived = (arrived.takeWhile fun c => c ≠ 0) ++ 0 :: t := by
  obtain ⟨t, ht⟩ := take_pad_split arrived 256 (by omega)
  refine ⟨t, ?_⟩
  rw [← ht, recv, zeroed_length, zeroed_drop]
  rfl

theorem takeWhile_not_mem (l : List Nat) : 0 ∉ l.takeWhile fun c => c ≠ 0 := by
  intro h
  have := List.mem_takeWhile_imp h
  simp at this

theorem recv_length (arrived : List Nat) : (recv zeroed arrived).length = 256 := by
  rw [recv, List.length_append, List.length_drop, zeroed_length, List.length_take]
  omega

theorem normalizeRef_eq (x : List Nat) : normalizeRef x =
    (dropEol (x.takeWhile fun c => c ≠ 0)).map toupper := rfl

theorem getCommand_of_split (arrived x t : List Nat) (hx : 0 ∉ x)
    (h : recv zeroed arrived = x ++ 0 :: t) :
    getCommand arrived = some (padded ((dropEol x).map toupper), recv zeroed arrived) ∧
    cstr (padded ((dropEol x).map toupper)) = some ((dropEol x).map toupper) ∧
    ((dropEol x).map toupper).length ≤ 255 := by
  have hl : x.length ≤ 255 := by
    have := recv_length arrived
    rw [h, List.length_append, List.length_cons] at this
    omega
  have hlen : ((dropEol x).map toupper).length ≤ 255 := by
    rw [List.length_map]
    exact le_trans (dropEol_length_le x) hl
  refine ⟨?_, cstr_padded _ (zero_not_mem_upper hx) hlen, hlen⟩
  unfold getCommand
  simp only []
  rw [h, getCommandLoop_append_nul x t hx, Option.map_some', append_zeroed_drop]

theorem normalizeRef_mem {x : List Nat} {c : Nat} (h : c ∈ normalizeRef x) :
    c ≠ 0 ∧ c ≠ 10 ∧ c ≠ 13 ∧ ¬ (97 ≤ c ∧ c ≤ 122) := by
  rw [normalizeRef_eq] at h
  obtain ⟨d, hd, rfl⟩ := List.mem_map.1 h
  have hd' := List.mem_filter.1 hd
  have h0 : d ≠ 0 := by
    have := List.mem_takeWhile_imp hd'.1
    simpa using this
  have he : d ≠ 10 ∧ d ≠ 13 := by simpa using hd'.2
  unfold toupper
  split <;> omega

theorem normalizeRef_fixed {r : List Nat}
    (h : ∀ c ∈ r, c ≠ 0 ∧ c ≠ 10 ∧ c ≠ 13 ∧ ¬ (97 ≤ c ∧ c ≤ 122)) : normalizeRef r = r := by
  rw [normalizeRef_eq]
  have h1 : (r.takeWhile fun c => c ≠ 0) = r := by
    apply List.takeWhile_eq_self_iff.2
    intro c hc
    simpa using (h c hc).1
  have h2 : dropEol r = r := by
    apply List.filter_eq_self.2
    intro c hc
    have := h c hc
    simp [this.2.1, this.2.2.1]
  rw [h1, h2]
  conv_rhs => rw [← List.map_id r]
  apply List.map_congr_left
  intro c hc
  have := (h c hc).2.2.2
  simp only [toupper, id]
  rw [if_neg this]

theorem takeWhile_append_nul (x t : List Nat) (hx : 0 ∉ x) :
    ((x ++ 0 :: t).takeWhile fun c => c ≠ 0) = x := by
  induction x with
  | nil => simp [List.takeWhile_cons]
  | cons c cs ih =>
    simp only [List.mem_cons, not_or] at hx
    have hc : c ≠ 0 := fun h => hx.1 h.symm
    simp only [List.cons_append, List.takeWhile_cons, ne_eq, hc, not_false_eq_true,
      decide_True, if_true, List.cons.injEq, true_and]
    exact ih hx.2

theorem getCommandLoop_eq_some {buf w : List Nat} (h : getCommandLoop buf = some w) :
    ∃ x t, buf = x ++ 0 :: t ∧ 0 ∉ x ∧ w = (dropEol x).map toupper := by
  cases hb : cstr buf with
  | none =>
    exfalso
    induction buf generalizing w with
    | nil => simp [getCommandLoop] at h
    | cons c cs ih =>
      by_cases hc : c = 0
      · simp [cstr, hc] at hb
      · simp only [cstr, hc, if_false, Option.map_eq_none'] at hb
        simp only [getCommandLoop, hc, if_false] at h
        split at h
        · simp only [Option.map_eq_some'] at h
          obtain ⟨v, hv, -⟩ := h
          exact ih hv hb
        · exact ih h hb
  | some x =>
    obtain ⟨t, rfl, hx⟩ := cstr_eq_some hb
    rw [getCommandLoop_append_nul x t hx] at h
    exact ⟨x, t, rfl, hx, (Option.some.inj h).symm⟩

/-- What `getCommand` returns, whenever it returns: a buffer that holds a string `s`,
the normalised text, and the receive buffer. -/
theorem getCommand_some {arrived : List Nat} {c : List Nat × List Nat}
    (h : getCommand arrived = some c) :
    ∃ s t, c = (s ++ 0 :: t, recv zeroed arrived) ∧ 0 ∉ s ∧ normalized arrived = some s := by
  have h' := h
  unfold getCommand at h'
  simp only [Option.map_eq_some'] at h'
  obtain ⟨w, hw, hc⟩ := h'
  obtain ⟨x, t, hx, h0, rfl⟩ := getCommandLoop_eq_some hw
  obtain ⟨hg, hcs, hl⟩ := getCommand_of_split arrived x t h0 hx
  obtain ⟨t', ht'⟩ := padded_split _ hl
  have hceq : c = (padded ((dropEol x).map toupper), recv zeroed arrived) := by
    rw [hg] at h
    exact (Option.some.inj h).symm
  refine ⟨_, t', ?_, zero_not_mem_upper h0, ?_⟩
  · rw [hceq, ht']
  · rw [normalized, hg, Option.some_bind]
    exact hcs

theorem frame_nil (T : respType) : frame T [] = bytes (responses T) ++ bytes "\n> " := by
  simp [frame]
  rfl

/-- The loop entered with a command buffer that holds the string `s`: it is left on
`QUIT`, otherwise the command is dispatched and the next one read. -/
theorem whileLoop_cases (m : Mailbox) (s t tmpReq : List Nat) (h0 : 0 ∉ s)
    (reads : List (List Nat)) (sent : List Nat) :
    whileLoop m (s ++ 0 :: t) s.length tmpReq reads sent =
      if s = bytes "QUIT" then
        some { box := m, sent := sent ++ frame .QUIT [], closed := true }
      else
        (dispatch m (s ++ 0 :: t) s.length tmpReq).bind fun d =>
          reRead d.1 reads (sent ++ d.2) := by
  obtain ⟨e, c⟩ := loop_test s t h0
  rw [whileLoop_eq, e, Option.some_bind, c]
  by_cases hq : s = bytes "QUIT"
  · simp only [hq, decide_True, Bool.not_true, Bool.false_eq_true, if_false, if_true,
      sendResponse_plain, Option.some_bind, frame_nil]
    rfl
  · simp only [hq, decide_False, Bool.not_false, if_true, if_false]

theorem reRead_cons_cases (m : Mailbox) (arrived s t tmpReq : List Nat)
    (hg : getCommand arrived = some (s ++ 0 :: t, tmpReq)) (h0 : 0 ∉ s)
    (rest : List (List Nat)) (sent : List Nat) :
    reRead m (arrived :: rest) sent =
      if s = [] ∨ s = bytes "QUIT" then
        some { box := m, sent := sent ++ frame .QUIT [], closed := true }
      else
        (dispatch m (s ++ 0 :: t) s.length tmpReq).bind fun d =>
          reRead d.1 rest (sent ++ d.2) := by
  rw [reRead, hg, Option.some_bind]
  simp only [strlen_append_nul s t h0, Option.some_bind]
  by_cases hn : s = []
  · subst hn
    simp only [List.length_nil, if_true, true_or]
    rw [frame_nil]
    exact whileLoop_quit m [] tmpReq rest sent
  · have hl : s.length ≠ 0 := fun h => hn (List.length_eq_zero.1 h)
    simp only [hl, if_false, hn, false_or]
    exact whileLoop_cases m s t tmpReq h0 rest sent

theorem handleRequests_cons_cases (m : Mailbox) (arrived s t tmpReq : List Nat)
    (hg : getCommand arrived = some (s ++ 0 :: t, tmpReq)) (h0 : 0 ∉ s)
    (rest : List (List Nat)) :
    handleRequests m (arrived :: rest) =
      if s = bytes "QUIT" then
        some { box := m, sent := frame .WELCOME [] ++ frame .QUIT [], closed := true }
      else
        (dispatch m (s ++ 0 :: t) s.length tmpReq).bind fun d =>
          reRead d.1 rest (frame .WELCOME [] ++ d.2) := by
  rw [handleRequests, sendResponse_plain, Option.some_bind]
  simp only [hg, Option.some_bind, strlen_append_nul s t h0, frame_nil]
  exact whileLoop_cases m s t tmpReq h0 rest _

theorem sendResponse_frame {T : respType} {inc : Nat} {p o : List Nat}
    (h : sendResponse T inc p = some o) : ∃ pl, o = frame T pl ∧ (inc ≠ 0 → pl = []) := by
  unfold sendResponse at h
  by_cases hi : inc = 0
  · rw [if_pos hi] at h
    obtain ⟨n, -, hn⟩ := Option.map_eq_some'.1 h
    exact ⟨p.take n, hn.symm, fun h => absurd hi h⟩
  · rw [if_neg hi] at h
    refine ⟨[], ?_, fun _ => rfl⟩
    rw [← Option.some.inj h, frame, List.append_nil]

theorem resolve_cases (s : List Nat) :
    (s = bytes "HELP" ∧ resolve s = .HELP) ∨ (s = bytes "DROP" ∧ resolve s = .DROP) ∨
    (s = bytes "GET" ∧ resolve s = .GET) ∨ (s = bytes "LOOK" ∧ resolve s = .LOOK) ∨
    (s = bytes "QUIT" ∧ resolve s = .QUIT) ∨
    (s ≠ bytes "HELP" ∧ s ≠ bytes "DROP" ∧ s ≠ bytes "GET" ∧ s ≠ bytes "LOOK" ∧
      s ≠ bytes "QUIT" ∧ s.take 3 = bytes "PUT" ∧ resolve s = .PUT) ∨
    (s ≠ bytes "HELP" ∧ s ≠ bytes "DROP" ∧ s ≠ bytes "GET" ∧ s ≠ bytes "LOOK" ∧
      s ≠ bytes "QUIT" ∧ s.take 3 ≠ bytes "PUT" ∧ resolve s = .NOT_SUPPORTED) := by
  by_cases h1 : s = bytes "HELP"
  · exact Or.inl ⟨h1, by rw [h1]; decide⟩
  by_cases h2 : s = bytes "DROP"
  · exact Or.inr (Or.inl ⟨h2, by rw [h2]; decide⟩)
  by_cases h3 : s = bytes "GET"
  · exact Or.inr (Or.inr (Or.inl ⟨h3, by rw [h3]; decide⟩))
  by_cases h4 : s = bytes "LOOK"
  · exact Or.inr (Or.inr (Or.inr (Or.inl ⟨h4, by rw [h4]; decide⟩)))
  by_cases h5 : s = bytes "QUIT"
  · exact Or.inr (Or.inr (Or.inr (Or.inr (Or.inl ⟨h5, by rw [h5]; decide⟩))))
  by_cases h6 : s.take 3 = bytes "PUT"
  · exact Or.inr (Or.inr (Or.inr (Or.inr (Or.inr (Or.inl
      ⟨h1, h2, h3, h4, h5, h6, by simp [resolve, h1, h2, h3, h4, h5, h6]⟩)))))
  · exact Or.inr (Or.inr (Or.inr (Or.inr (Or.inr (Or.inr
      ⟨h1, h2, h3, h4, h5, h6, by simp [resolve, h1, h2, h3, h4, h5, h6]⟩)))))

/-- The branch `dispatch` takes for a command buffer that holds the string `s`, written
with the comparisons evaluated. -/
theorem dispatch_eq (m : Mailbox) (s t tmpReq : List Nat) (hs : 0 ∉ s) :
    dispatch m (s ++ 0 :: t) s.length tmpReq =
      if s = bytes "HELP" then (sendResponse .HELP 1 zeroed).bind fun out => some (m, out)
      else if s = bytes "DROP" then
        (sendResponse .DROP 1 zeroed).bind fun out =>
          some (if m.empty ≠ 0 then { cubby := zeroed, empty := 0 } else m, out)
      else if s = bytes "GET" then
        if m.empty ≠ 0 then
          (strlen m.cubby).bind fun n => (strncpy zeroed m.cubby n).bind fun payload =>
            (sendResponse .GET 0 (payload.set 255 0)).bind fun out =>
              some ({ cubby := zeroed, empty := 0 }, out)
        else
          (sendResponse .GET 0 (padded (bytes "<no message stored>"))).bind fun out =>
            some (m, out)
      else if s = bytes "LOOK" then
        if m.empty ≠ 0 then
          (strlen m.cubby).bind fun n => (strncpy zeroed m.cubby n).bind fun payload =>
            (sendResponse .LOOK 0 (payload.set 255 0)).bind fun out => some (m, out)
        else
          (sendResponse .LOOK 0 (padded (bytes "<no message stored>"))).bind fun out =>
            some (m, out)
      else if s.take 3 = bytes "PUT" then
        (extractPayload tmpReq).bind fun payload => (strlen payload).bind fun n =>
          (strncpy zeroed payload n).bind fun cubby =>
            (sendResponse .PUT 1 payload).bind fun out =>
              some ({ cubby := cubby.set 255 0, empty := 1 }, out)
      else (sendResponse .NOT_SUPPORTED 1 zeroed).bind fun out => some (m, out) := by
  obtain ⟨e1, e2, e3, e4, e5, -⟩ := dispatch_tests s t hs
  have c1 := exact_match s (bytes "HELP")
  have c2 := exact_match s (bytes "DROP")
  have c3 := exact_match s (bytes "GET")
  have c4 := exact_match s (bytes "LOOK")
  have l4 : (bytes "HELP").length = 4 := by decide
  have l4d : (bytes "DROP").length = 4 := by decide
  have l3 : (bytes "GET").length = 3 := by decide
  have l4l : (bytes "LOOK").length = 4 := by decide
  rw [l4] at c1; rw [l4d] at c2; rw [l3] at c3; rw [l4l] at c4
  unfold dispatch
  simp only [e1, e2, e3, e4, e5, c1, c2, c3, c4, memcpy_default, Option.bind_eq_bind,
    Option.some_bind, Option.pure_def, decide_eq_true_eq]

theorem append_nul_split (y t : List Nat) :
    ∃ t', y ++ 0 :: t = (y.takeWhile fun c => c ≠ 0) ++ 0 :: t' := by
  induction y with
  | nil => exact ⟨t, rfl⟩
  | cons c cs ih =>
    by_cases hc : c = 0
    · subst hc
      exact ⟨cs ++ 0 :: t, by simp [List.takeWhile_cons]⟩
    · obtain ⟨t', ht'⟩ := ih
      refine ⟨t', ?_⟩
      have e : ((c :: cs).takeWhile fun c => c ≠ 0) = c :: cs.takeWhile fun c => c ≠ 0 := by
        simp [List.takeWhile_cons, hc]
      rw [e, List.cons_append, List.cons_append, ht']

theorem padded_drop_four (r : List Nat) (hl : r.length ≤ 255) :
    (padded r).drop 4 = r.drop 4 ++ 0 :: List.replicate (251 - (r.drop 4).length) 0 := by
  rw [padded, List.drop_append_eq_append_drop, List.drop_replicate]
  have : MAX_STRING - r.length - (4 - r.length) = (251 - (r.drop 4).length) + 1 := by
    simp only [List.length_drop, MAX_STRING]
    omega
  rw [this, List.replicate_succ]

theorem payloadRef_facts (arrived : List Nat) (hl : arrived.length ≤ 255) :
    0 ∉ payloadRef arrived ∧ (payloadRef arrived).length ≤ 251 := by
  constructor
  · exact zero_not_mem_dropEol (takeWhile_not_mem _)
  · have h1 : (payloadRef arrived).length ≤ ((arrived.drop 4).takeWhile fun c => c ≠ 0).length :=
      dropEol_length_le _
    have h2 := (List.takeWhile_sublist (l := arrived.drop 4) fun c => c ≠ 0).length_le
    rw [List.length_drop] at h2
    omega

/-- What `extractPayload` returns for the receive buffer of a line of at most 255
bytes. -/
theorem extractPayload_received (arrived : List Nat) (hl : arrived.length ≤ 255) :
    extractPayload (padded arrived) = some (padded (payloadRef arrived)) := by
  obtain ⟨t', ht'⟩ := append_nul_split (arrived.drop 4)
    (List.replicate (251 - (arrived.drop 4).length) 0)
  unfold extractPayload
  simp only []
  rw [padded_drop_four arrived hl, ht', extractPayloadLoop_append_nul _ _ (takeWhile_not_mem _),
    Option.map_some', append_zeroed_drop]
  rfl

/-- What `getCommand` returns for a line of at most 255 bytes. -/
theorem getCommand_received (arrived : List Nat) (hl : arrived.length ≤ 255) :
    ∃ t, getCommand arrived = some (normalizeRef arrived ++ 0 :: t, padded arrived) ∧
      0 ∉ normalizeRef arrived := by
  have hx : (arrived.takeWhile fun c => c ≠ 0).length ≤ 255 :=
    le_trans (List.takeWhile_sublist _).length_le hl
  obtain ⟨t, ht⟩ := recv_split arrived hx
  obtain ⟨hg, -, hlen⟩ := getCommand_of_split arrived _ t (takeWhile_not_mem arrived) ht
  obtain ⟨t', ht'⟩ := padded_split _ hlen
  rw [recv_zeroed arrived (by omega), ht'] at hg
  exact ⟨t', hg, zero_not_mem_upper (takeWhile_not_mem arrived)⟩

theorem frame_sentinel (T : respType) :
    frame T (bytes "<no message stored>") =
      bytes (responses T) ++ bytes "<no message stored>" ++ bytes "\n> " := rfl

set_option maxRecDepth 100000 in
/-- One command on a mailbox that stands for an abstract one does what the
specification says of it: the mailbox afterwards stands for `slotAfter`, and the bytes
sent are the frame of the resolved response with the payload `echoed`. -/
theorem dispatch_ofSlot (slot : Option (List Nat)) (hok : SlotOK slot)
    (s t tmpReq w : List Nat) (h0 : 0 ∉ s) (hq : s ≠ bytes "QUIT")
    (hput : extractPayload tmpReq = some (padded w)) (hw : 0 ∉ w) (hwl : w.length ≤ 255) :
    dispatch (Mailbox.ofSlot slot) (s ++ 0 :: t) s.length tmpReq =
      some (Mailbox.ofSlot (slotAfter slot (resolve s) w),
        frame (resolve s) (echoed slot (resolve s))) := by
  have hempty : ∀ p, (Mailbox.ofSlot (some p)).empty ≠ 0 := fun p => by simp [Mailbox.ofSlot]
  have hfull : ∀ p, slot = some p → ∃ u, (Mailbox.ofSlot slot).cubby = p ++ 0 :: u ∧ 0 ∉ p ∧
      (Mailbox.ofSlot slot).cubby.length = 256 ∧ (Mailbox.ofSlot slot).empty ≠ 0 := by
    intro p hp
    obtain ⟨hp0, hpl⟩ := hok p hp
    subst hp
    exact ⟨_, padded_eq p hpl, hp0, padded_length p (by omega), hempty p⟩
  rcases resolve_cases s with ⟨h, hr⟩ | ⟨h, hr⟩ | ⟨h, hr⟩ | ⟨h, hr⟩ | ⟨h, -⟩ |
    ⟨h1, h2, h3, h4, -, h6, hr⟩ | ⟨h1, h2, h3, h4, -, h6, hr⟩
  · rw [hr, h]
    have := dispatch_HELP (Mailbox.ofSlot slot) t tmpReq
    rw [show (bytes "HELP").length = 4 from rfl, this]
    simp only [slotAfter, echoed, frame_nil]
  · rw [hr, h]
    have := dispatch_DROP (Mailbox.ofSlot slot) t tmpReq
    rw [show (bytes "DROP").length = 4 from rfl, this]
    simp only [slotAfter, echoed, frame_nil]
    cases slot with
    | none => rfl
    | some p => rfl
  · rw [hr, h]
    rw [show (bytes "GET").length = 3 from rfl]
    cases hslot : slot with
    | none => exact dispatch_GET_empty (Mailbox.ofSlot none) t tmpReq rfl
    | some p =>
      obtain ⟨u, hc, hp0, hlen, he⟩ := hfull p hslot
      rw [hslot] at hc hlen he
      exact dispatch_GET_full _ t tmpReq p u he hc hp0 hlen
  · rw [hr, h]
    rw [show (bytes "LOOK").length = 4 from rfl]
    cases hslot : slot with
    | none => exact dispatch_LOOK_empty (Mailbox.ofSlot none) t tmpReq rfl
    | some p =>
      obtain ⟨u, hc, hp0, hlen, he⟩ := hfull p hslot
      rw [hslot] at hc hlen he
      exact dispatch_LOOK_full _ t tmpReq p u he hc hp0 hlen
  · exact absurd h hq
  · rw [hr]
    exact dispatch_PUT _ s t tmpReq w h0 h6 hput hw hwl
  · rw [hr]
    exact dispatch_unknown _ s t tmpReq h0 h1 h2 h3 h4 h6

theorem slotAfter_ok (slot : Option (List Nat)) (hok : SlotOK slot) (T : respType)
    (w : List Nat) (hw : 0 ∉ w) (hwl : w.length ≤ 255) : SlotOK (slotAfter slot T w) := by
  intro p hp
  cases T <;> simp only [slotAfter] at hp <;> first
    | exact hok p hp
    | (cases hp; exact ⟨hw, hwl⟩)
    | (cases hp)

theorem reachable_sound {m : Mailbox} (h : Reachable m) : m.sound := by
  induction h with
  | init => exact initMailbox_sound
  | session reads r _ hr ih => exact handleRequests_sound _ reads r hr ih

theorem slotAfterReads_stop (first : Bool) (slot : Option (List Nat)) (a : List Nat)
    (rest : List (List Nat))
    (h : normalizeRef a = bytes "QUIT" ∨ (normalizeRef a = [] ∧ first = false)) :
    slotAfterReads first slot (a :: rest) = slot := by
  rw [slotAfterReads, if_pos h]

theorem slotAfterReads_go (first : Bool) (slot : Option (List Nat)) (a : List Nat)
    (rest : List (List Nat))
    (h : ¬ (normalizeRef a = bytes "QUIT" ∨ (normalizeRef a = [] ∧ first = false))) :
    slotAfterReads first slot (a :: rest) =
      slotAfterReads false (slotAfter slot (resolve (normalizeRef a)) (payloadRef a)) rest := by
  rw [slotAfterReads, if_neg h]

theorem reRead_ofSlot (reads : List (List Nat)) :
    (∀ a ∈ reads, a.length ≤ 255) → ∀ (slot : Option (List Nat)), SlotOK slot →
    ∀ sent, ∃ r, reRead (Mailbox.ofSlot slot) reads sent = some r ∧
      r.box = Mailbox.ofSlot (slotAfterReads false slot reads) ∧
      SlotOK (slotAfterReads false slot reads) := by
  induction reads with
  | nil =>
    intro _ slot hok sent
    exact ⟨_, rfl, rfl, hok⟩
  | cons a rest ih =>
    intro hl slot hok sent
    have hla : a.length ≤ 255 := hl a (List.mem_cons_self _ _)
    have hlr : ∀ b ∈ rest, b.length ≤ 255 := fun b hb => hl b (List.mem_cons_of_mem _ hb)
    obtain ⟨t, hg, h0⟩ := getCommand_received a hla
    rw [reRead_cons_cases _ a _ t _ hg h0]
    by_cases hterm : normalizeRef a = [] ∨ normalizeRef a = bytes "QUIT"
    · rw [if_pos hterm]
      have hc : normalizeRef a = bytes "QUIT" ∨ (normalizeRef a = [] ∧ false = false) := by
        rcases hterm with h | h
        · exact Or.inr ⟨h, rfl⟩
        · exact Or.inl h
      rw [slotAfterReads_stop _ _ _ _ hc]
      exact ⟨_, rfl, rfl, hok⟩
    · rw [if_neg hterm]
      have hc : ¬ (normalizeRef a = bytes "QUIT" ∨ (normalizeRef a = [] ∧ false = false)) := by
        rintro (h | ⟨h, -⟩)
        · exact hterm (Or.inr h)
        · exact hterm (Or.inl h)
      obtain ⟨hw, hwl⟩ := payloadRef_facts a hla
      rw [dispatch_ofSlot slot hok _ t _ (payloadRef a) h0 (fun h => hterm (Or.inr h))
        (extractPayload_received a hla) hw (by omega), Option.some_bind]
      rw [slotAfterReads_go _ _ _ _ hc]
      exact ih hlr _ (slotAfter_ok slot hok _ _ hw (by omega)) _

theorem handleRequests_ofSlot (reads : List (List Nat)) (hl : ∀ a ∈ reads, a.length ≤ 255)
    (slot : Option (List Nat)) (hok : SlotOK slot) :
    ∃ r, handleRequests (Mailbox.ofSlot slot) reads = some r ∧
      r.box = Mailbox.ofSlot (slotAfterReads true slot reads) ∧
      SlotOK (slotAfterReads true slot reads) := by
  cases reads with
  | nil => exact ⟨_, rfl, rfl, hok⟩
  | cons a rest =>
    have hla : a.length ≤ 255 := hl a (List.mem_cons_self _ _)
    have hlr : ∀ b ∈ rest, b.length ≤ 255 := fun b hb => hl b (List.mem_cons_of_mem _ hb)
    obtain ⟨t, hg, h0⟩ := getCommand_received a hla
    rw [handleRequests_cons_cases _ a _ t _ hg h0]
    by_cases hterm : normalizeRef a = bytes "QUIT"
    · rw [if_pos hterm]
      rw [slotAfterReads_stop _ _ _ _ (Or.inl hterm)]
      exact ⟨_, rfl, rfl, hok⟩
    · rw [if_neg hterm]
      have hc : ¬ (normalizeRef a = bytes "QUIT" ∨ (normalizeRef a = [] ∧ true = false)) := by
        rintro (h | ⟨-, h⟩)
        · exact hterm h
        · cases h
      obtain ⟨hw, hwl⟩ := payloadRef_facts a hla
      rw [dispatch_ofSlot slot hok _ t _ (payloadRef a) h0 hterm
        (extractPayload_received a hla) hw (by omega), Option.some_bind]
      rw [slotAfterReads_go _ _ _ _ hc]
      exact reRead_ofSlot rest hlr _ (slotAfter_ok slot hok _ _ hw (by omega)) _

theorem bind_frame {T : respType} {inc : Nat} {p : List Nat} {b m1 : Mailbox} {out : List Nat}
    (h : ((sendResponse T inc p).bind fun o => some (b, o)) = some (m1, out)) :
    ∃ pl, out = frame T pl ∧ (inc ≠ 0 → pl = []) := by
  obtain ⟨o, ho, hx⟩ := Option.bind_eq_some.1 h
  simp only [Option.some.injEq, Prod.mk.injEq] at hx
  rw [← hx.2]
  exact sendResponse_frame ho

/-- The bytes `dispatch` sends, whenever it returns: one frame, of the response the
command text resolves to, with a payload for GET and LOOK only. -/
theorem dispatch_frame (m m1 : Mailbox) (s t tmpReq out : List Nat) (h0 : 0 ∉ s)
    (hq : s ≠ bytes "QUIT")
    (h : dispatch m (s ++ 0 :: t) s.length tmpReq = some (m1, out)) :
    ∃ pl, out = frame (resolve s) pl ∧
      resolve s ∈ [respType.HELP, respType.DROP, respType.GET, respType.LOOK, respType.PUT,
        respType.NOT_SUPPORTED] ∧
      (resolve s ≠ respType.GET → resolve s ≠ respType.LOOK → pl = []) := by
  rw [dispatch_eq m s t tmpReq h0] at h
  rcases resolve_cases s with ⟨hs, hr⟩ | ⟨hs, hr⟩ | ⟨hs, hr⟩ | ⟨hs, hr⟩ | ⟨hs, -⟩ |
    ⟨h1, h2, h3, h4, -, h6, hr⟩ | ⟨h1, h2, h3, h4, -, h6, hr⟩
  · rw [if_pos hs] at h
    obtain ⟨pl, hpl, hnil⟩ := bind_frame h
    exact ⟨pl, by rw [hr]; exact hpl, by rw [hr]; decide, fun _ _ => hnil (by decide)⟩
  · have h1 : s ≠ bytes "HELP" := by rw [hs]; decide
    rw [if_neg h1, if_pos hs] at h
    obtain ⟨pl, hpl, hnil⟩ := bind_frame h
    exact ⟨pl, by rw [hr]; exact hpl, by rw [hr]; decide, fun _ _ => hnil (by decide)⟩
  · have h1 : s ≠ bytes "HELP" := by rw [hs]; decide
    have h2 : s ≠ bytes "DROP" := by rw [hs]; decide
    rw [if_neg h1, if_neg h2, if_pos hs] at h
    by_cases he : m.empty ≠ 0
    · rw [if_pos he] at h
      obtain ⟨n, -, h⟩ := Option.bind_eq_some.1 h
      obtain ⟨p, -, h⟩ := Option.bind_eq_some.1 h
      obtain ⟨pl, hpl, -⟩ := bind_frame h
      exact ⟨pl, by rw [hr]; exact hpl, by rw [hr]; decide, fun hg => absurd hr hg⟩
    · rw [if_neg he] at h
      obtain ⟨pl, hpl, -⟩ := bind_frame h
      exact ⟨pl, by rw [hr]; exact hpl, by rw [hr]; decide, fun hg => absurd hr hg⟩
  · have h1 : s ≠ bytes "HELP" := by rw [hs]; decide
    have h2 : s ≠ bytes "DROP" := by rw [hs]; decide
    have h3 : s ≠ bytes "GET" := by rw [hs]; decide
    rw [if_neg h1, if_neg h2, if_neg h3, if_pos hs] at h
    by_cases he : m.empty ≠ 0
    · rw [if_pos he] at h
      obtain ⟨n, -, h⟩ := Option.bind_eq_some.1 h
      obtain ⟨p, -, h⟩ := Option.bind_eq_some.1 h
      obtain ⟨pl, hpl, -⟩ := bind_frame h
      exact ⟨pl, by rw [hr]; exact hpl, by rw [hr]; decide, fun _ hl => absurd hr hl⟩
    · rw [if_neg he] at h
      obtain ⟨pl, hpl, -⟩ := bind_frame h
      exact ⟨pl, by rw [hr]; exact hpl, by rw [hr]; decide, fun _ hl => absurd hr hl⟩
  · exact absurd hs hq
  · rw [if_neg h1, if_neg h2, if_neg h3, if_neg h4, if_pos h6] at h
    obtain ⟨p, -, h⟩ := Option.bind_eq_some.1 h
    obtain ⟨n, -, h⟩ := Option.bind_eq_some.1 h
    obtain ⟨cub, -, h⟩ := Option.bind_eq_some.1 h
    obtain ⟨pl, hpl, hnil⟩ := bind_frame h
    exact ⟨pl, by rw [hr]; exact hpl, by rw [hr]; decide, fun _ _ => hnil (by decide)⟩
  · rw [if_neg h1, if_neg h2, if_neg h3, if_neg h4, if_neg h6] at h
    obtain ⟨pl, hpl, hnil⟩ := bind_frame h
    exact ⟨pl, by rw [hr]; exact hpl, by rw [hr]; decide, fun _ _ => hnil (by decide)⟩

/-- The bytes sent from a re-read on by a handler that terminates: one frame for each
command handled and the frame of `QUIT`. -/
theorem reRead_framing (reads : List (List Nat)) :
    ∀ (m : Mailbox) (sent : List Nat) (r : Result), reRead m reads sent = some r →
      r.closed = true →
      ∃ (handled : List (List Nat)) (last : List Nat) (ignored : List (List Nat))
        (fs : List (respType × List Nat)),
        reads = handled ++ last :: ignored ∧ List.Forall₂ Answers handled fs ∧
        (normalized last = some (bytes "QUIT") ∨ normalized last = some []) ∧
        r.sent = sent ++ (fs.map fun f => frame f.1 f.2).flatten ++ frame .QUIT [] := by
  induction reads with
  | nil =>
    intro m sent r hr hc
    simp only [reRead, Option.some.injEq] at hr
    rw [← hr] at hc
    cases hc
  | cons a rest ih =>
    intro m sent r hr hc
    cases hg : getCommand a with
    | none => simp [reRead, hg] at hr
    | some c =>
      obtain ⟨s, t, rfl, h0, hn⟩ := getCommand_some hg
      rw [reRead_cons_cases m a s t _ hg h0] at hr
      by_cases hterm : s = [] ∨ s = bytes "QUIT"
      · rw [if_pos hterm, Option.some.injEq] at hr
        refine ⟨[], a, rest, [], rfl, List.Forall₂.nil, ?_, ?_⟩
        · rcases hterm with h | h
          · exact Or.inr (h ▸ hn)
          · exact Or.inl (h ▸ hn)
        · rw [← hr]
          simp
      · rw [if_neg hterm] at hr
        obtain ⟨d, hd, hr⟩ := Option.bind_eq_some.1 hr
        have hq : s ≠ bytes "QUIT" := fun h => hterm (Or.inr h)
        have hd1 : dispatch m (s ++ 0 :: t) s.length (recv zeroed a) = some (d.1, d.2) := hd
        obtain ⟨pl, hpl, hin, hnil⟩ := dispatch_frame m d.1 s t _ d.2 h0 hq hd1
        obtain ⟨handled, last, ignored, fs, hreads, hall, hlast, hsent⟩ := ih d.1 _ r hr hc
        refine ⟨a :: handled, last, ignored, (resolve s, pl) :: fs, ?_, ?_, hlast, ?_⟩
        · rw [hreads]
          rfl
        · exact List.Forall₂.cons ⟨s, hn, rfl, hin, hnil⟩ hall
        · rw [hsent, hpl]
          simp only [List.map_cons, List.flatten_cons, List.append_assoc]

/-- On a mailbox whose content is a terminated buffer, `dispatch` returns for every
command that is not `QUIT` and every receive buffer of a line of at most 255 bytes. -/
theorem dispatch_total (m : Mailbox) (hwf : m.wf) (s t arrived : List Nat) (h0 : 0 ∉ s)
    (hq : s ≠ bytes "QUIT") (hl : arrived.length ≤ 255) :
    ∃ m1 out, dispatch m (s ++ 0 :: t) s.length (padded arrived) = some (m1, out) := by
  rcases resolve_cases s with ⟨hs, -⟩ | ⟨hs, -⟩ | ⟨hs, -⟩ | ⟨hs, -⟩ | ⟨hs, -⟩ |
    ⟨h1, h2, h3, h4, -, h6, -⟩ | ⟨h1, h2, h3, h4, -, h6, -⟩
  · rw [hs]
    exact ⟨_, _, dispatch_HELP m t _⟩
  · rw [hs]
    exact ⟨_, _, dispatch_DROP m t _⟩
  · rw [hs]
    by_cases he : m.empty = 0
    · exact ⟨_, _, dispatch_GET_empty m t _ he⟩
    · obtain ⟨c, u, hcub, hc⟩ := exists_split_of_mem hwf.2
      exact ⟨_, _, dispatch_GET_full m t _ c u he hcub hc hwf.1⟩
  · rw [hs]
    by_cases he : m.empty = 0
    · exact ⟨_, _, dispatch_LOOK_empty m t _ he⟩
    · obtain ⟨c, u, hcub, hc⟩ := exists_split_of_mem hwf.2
      exact ⟨_, _, dispatch_LOOK_full m t _ c u he hcub hc hwf.1⟩
  · exact absurd hs hq
  · obtain ⟨hw, hwl⟩ := payloadRef_facts arrived hl
    exact ⟨_, _, dispatch_PUT m s t _ (payloadRef arrived) h0 h6
      (extractPayload_received arrived hl) hw (by omega)⟩
  · exact ⟨_, _, dispatch_unknown m s t _ h0 h1 h2 h3 h4 h6⟩

/-- The two steps of `getStep`, made one after the other, are the `GET` branch of
`dispatch`. -/
theorem getStep_twice (m : Mailbox) (t tmpReq : List Nat) :
    ((getStep m .start).bind fun r => getStep r.1 r.2) =
      (dispatch m (bytes "GET" ++ 0 :: t) 3 tmpReq).map fun d => (d.1, GetPc.sent d.2) := by
  have hd := dispatch_eq m (bytes "GET") t tmpReq (by decide)
  rw [show (bytes "GET").length = 3 from rfl] at hd
  rw [hd, if_neg (by decide), if_neg (by decide), if_pos rfl]
  simp only [getStep, Option.some_bind]
  by_cases he : m.empty = 0
  · have hb : (m.empty != 0) = false := by simp [he]
    rw [hb]
    simp only [getStep, memcpy_default, Option.some_bind, he, ne_eq, not_true_eq_false,
      if_false]
    cases sendResponse .GET 0 (padded (bytes "<no message stored>")) <;> rfl
  · have hb : (m.empty != 0) = true := by simp [he]
    rw [hb]
    simp only [getStep, ne_eq, he, not_false_eq_true, if_true]
    cases strlen m.cubby with
    | none => rfl
    | some n =>
      simp only [Option.some_bind]
      cases strncpy zeroed m.cubby n with
      | none => rfl
      | some p =>
        simp only [Option.some_bind]
        cases sendResponse .GET 0 (p.set 255 0) <;> rfl

/-! ## The claims -/

set_option maxRecDepth 100000 in
/-- C1, as stated, fails: the message of 251 bytes `a` is within the bound of the claim,
but with one trailing LF its line has 256 bytes, `recv` fills `tmpReq` to its last byte
and the loop of `getCommand` reads past the end of the buffer, so no response is
guaranteed.  With a trailing CR LF the line has 257 bytes and no `recv` can deliver it
whole; when its first 255 bytes arrive first, the handler sends `!PUT: ok`, takes the
CR LF that follows for an empty command, sends `!QUIT: ok` and closes: the `GET` is never
answered. -/
theorem roundtrip_long_line_counterexample :
    (List.replicate 251 97).length ≤ 251 ∧ (∀ c ∈ List.replicate 251 97, plain c) ∧
    reRead initMailbox
      [bytes "PUT " ++ List.replicate 251 97 ++ [10], bytes "GET", bytes "GET"] [] = none ∧
    reRead initMailbox
      [bytes "PUT " ++ List.replicate 251 97, [13, 10], bytes "GET", bytes "GET"] [] =
      some { box := { cubby := padded (List.replicate 251 97), empty := 1 },
             sent := bytes "!PUT: ok\n> !QUIT: ok\n> ", closed := true } := by
  decide

/-- C1, amended: round trip.  For every mailbox state `m` and every message `p` without
NUL, CR or LF byte, when the line made of the keyword `PUT` in any letter case (`w`), a
space, `p` and any trailing CR/LF bytes (`e`) has at most 255 bytes in all, handling that
line, then the line `GET` and then `GET` again sends `!PUT: ok\n> `, then `!GET: `, `p`
unchanged and `\n> `, then `!GET: <no message stored>\n> `, and leaves the initial, empty
mailbox; this holds inside the loop (after any bytes `sent`) and for the first command
after the welcome. -/
theorem put_get_roundtrip (m : Mailbox) (w p e : List Nat) (rest : List (List Nat))
    (sent : List Nat) (hw : w.map toupper = bytes "PUT") (hp : ∀ c ∈ p, plain c)
    (he : ∀ c ∈ e, eol c) (hlen : (w ++ bytes " " ++ p ++ e).length ≤ 255) :
    reRead m ((w ++ bytes " " ++ p ++ e) :: bytes "GET" :: bytes "GET" :: rest) sent =
      reRead initMailbox rest
        (sent ++ bytes "!PUT: ok\n> " ++ (bytes "!GET: " ++ p ++ bytes "\n> ") ++
          bytes "!GET: <no message stored>\n> ") ∧
    handleRequests m ((w ++ bytes " " ++ p ++ e) :: bytes "GET" :: bytes "GET" :: rest) =
      reRead initMailbox rest
        (bytes (responses .WELCOME) ++ bytes "\n> " ++ bytes "!PUT: ok\n> " ++
          (bytes "!GET: " ++ p ++ bytes "\n> ") ++ bytes "!GET: <no message stored>\n> ") := by
  have hline : w ++ bytes " " ++ p ++ e = w ++ 32 :: p ++ e := by
    simp [show bytes " " = [32] from rfl]
  rw [hline] at hlen ⊢
  have hpl : p.length ≤ 255 := by
    simp only [List.length_append, List.length_cons] at hlen
    omega
  have h1 := pass_PUT_line m w p e hw hp he hlen
  have h2 := (pass_on_stored p (zero_not_mem_of_plain hp) hpl).1
  have h3 := pass_GET_empty initMailbox rfl
  constructor
  · rw [h1.at_reRead, h2.at_reRead, h3.at_reRead]
  · rw [h1.at_first, h2.at_reRead, h3.at_reRead]

set_option maxRecDepth 100000 in
/-- C1, witness: the line `pUt hi there` with CR LF, then `GET` twice. -/
theorem put_get_roundtrip_witness :
    reRead initMailbox [bytes "pUt hi there\r\n", bytes "GET", bytes "GET"] [] =
      some { box := initMailbox,
             sent := bytes "!PUT: ok\n> !GET: hi there\n> !GET: <no message stored>\n> ",
             closed := false } :=
  (put_get_roundtrip initMailbox (bytes "pUt") (bytes "hi there") [13, 10] [] []
    (by decide) (by decide) (by decide) (by decide)).1

/-- C2: overwrite.  For every prior mailbox state `m` and all messages `a` and `b` of at
most 251 bytes without NUL, CR or LF, the lines `PUT a`, `PUT b`, `GET`, `GET` send
`!PUT: ok\n> ` twice, then `!GET: ` with `b`, then the sentinel; after the two `PUT`s the
handler goes on with the mailbox that holds `b` and zeros only, so whatever is sent from
then on is the same for every first message `a` and every prior state. -/
theorem put_overwrites (m : Mailbox) (a b : List Nat) (rest : List (List Nat))
    (sent : List Nat) (ha : ∀ c ∈ a, plain c) (hb : ∀ c ∈ b, plain c)
    (hla : a.length ≤ 251) (hlb : b.length ≤ 251) :
    reRead m ((bytes "PUT " ++ a) :: (bytes "PUT " ++ b) :: bytes "GET" :: bytes "GET" :: rest)
        sent =
      reRead initMailbox rest
        (sent ++ bytes "!PUT: ok\n> " ++ bytes "!PUT: ok\n> " ++
          (bytes "!GET: " ++ b ++ bytes "\n> ") ++ bytes "!GET: <no message stored>\n> ") ∧
    reRead m ((bytes "PUT " ++ a) :: (bytes "PUT " ++ b) :: rest) sent =
      reRead { cubby := padded b, empty := 1 } rest
        (sent ++ bytes "!PUT: ok\n> " ++ bytes "!PUT: ok\n> ") ∧
    handleRequests m ((bytes "PUT " ++ a) :: (bytes "PUT " ++ b) :: rest) =
      reRead { cubby := padded b, empty := 1 } rest
        (bytes (responses .WELCOME) ++ bytes "\n> " ++ bytes "!PUT: ok\n> " ++
          bytes "!PUT: ok\n> ") ∧
    (∀ (m' : Mailbox) (a' : List Nat), (∀ c ∈ a', plain c) → a'.length ≤ 251 →
      reRead m ((bytes "PUT " ++ a) :: (bytes "PUT " ++ b) :: rest) sent =
        reRead m' ((bytes "PUT " ++ a') :: (bytes "PUT " ++ b) :: rest) sent) := by
  have h1 := pass_PUT m a ha hla
  have h2 : ∀ m0, Pass m0 (bytes "PUT " ++ b) { cubby := padded b, empty := 1 }
      (bytes "!PUT: ok\n> ") := fun m0 => pass_PUT m0 b hb hlb
  have h3 := (pass_on_stored b (zero_not_mem_of_plain hb) (by omega)).1
  have h4 := pass_GET_empty initMailbox rfl
  refine ⟨?_, ?_, ?_, ?_⟩
  · rw [h1.at_reRead, (h2 _).at_reRead, h3.at_reRead, h4.at_reRead]
  · rw [h1.at_reRead, (h2 _).at_reRead]
  · rw [h1.at_first, (h2 _).at_reRead]
  · intro m' a' ha' hla'
    rw [h1.at_reRead, (h2 _).at_reRead, (pass_PUT m' a' ha' hla').at_reRead,
      (h2 _).at_reRead]

set_option maxRecDepth 100000 in
/-- C2, witness: `PUT a`, `PUT b`, `GET`, `GET` on a mailbox that holds `old`. -/
theorem put_overwrites_witness :
    reRead { cubby := padded (bytes "old"), empty := 1 }
        [bytes "PUT a", bytes "PUT b", bytes "GET", bytes "GET"] [] =
      some { box := initMailbox,
             sent := bytes "!PUT: ok\n> !PUT: ok\n> !GET: b\n> !GET: <no message stored>\n> ",
             closed := false } :=
  (put_overwrites { cubby := padded (bytes "old"), empty := 1 } (bytes "a") (bytes "b") [] []
    (by decide) (by decide) (by decide) (by decide)).1

/-- C3: `LOOK` is a non-destructive `GET`.  For every mailbox state `m` whose content is a
terminated buffer of `MAX_STRING` bytes, as it is in every state a handler leaves, there
is one payload `pl` (the sentinel when `m` is unoccupied, the
stored string when it is occupied) such that `LOOK` sends `!LOOK: `, `pl`, `\n> ` and the
handler goes on with `m` itself, content and indicator unchanged, while `GET` sends
`!GET: `, `pl`, `\n> `.  Hence after `PUT x` any number `n` of `LOOK`s send
`!LOOK: x\n> ` each and a following `GET` still sends `!GET: x\n> `. -/
theorem look_is_nondestructive_get (m : Mailbox) (hwf : m.wf) :
    (∃ pl : List Nat,
      (m.empty = 0 → pl = bytes "<no message stored>") ∧
      (m.empty ≠ 0 → cstr m.cubby = some pl) ∧
      (∀ rest sent, reRead m (bytes "LOOK" :: rest) sent =
        reRead m rest (sent ++ (bytes "!LOOK: " ++ pl ++ bytes "\n> "))) ∧
      (∀ rest, handleRequests m (bytes "LOOK" :: rest) =
        reRead m rest (bytes (responses .WELCOME) ++ bytes "\n> " ++
          (bytes "!LOOK: " ++ pl ++ bytes "\n> "))) ∧
      (∀ rest sent, reRead m (bytes "GET" :: rest) sent =
        reRead (if m.empty ≠ 0 then initMailbox else m) rest
          (sent ++ (bytes "!GET: " ++ pl ++ bytes "\n> "))) ∧
      (∀ rest, handleRequests m (bytes "GET" :: rest) =
        reRead (if m.empty ≠ 0 then initMailbox else m) rest
          (bytes (responses .WELCOME) ++ bytes "\n> " ++
            (bytes "!GET: " ++ pl ++ bytes "\n> ")))) ∧
    (∀ x : List Nat, (∀ c ∈ x, plain c) → x.length ≤ 251 →
      ∀ (n : Nat) (rest : List (List Nat)) (sent : List Nat),
      reRead m ((bytes "PUT " ++ x) :: (List.replicate n (bytes "LOOK") ++
          bytes "GET" :: rest)) sent =
        reRead initMailbox rest
          (sent ++ bytes "!PUT: ok\n> " ++
            (List.replicate n (bytes "!LOOK: " ++ x ++ bytes "\n> ")).flatten ++
            (bytes "!GET: " ++ x ++ bytes "\n> "))) := by
  constructor
  · by_cases he : m.empty = 0
    · refine ⟨bytes "<no message stored>", fun _ => rfl, fun h => absurd he h, ?_, ?_, ?_, ?_⟩
      · exact fun rest sent => (pass_LOOK_empty m he).at_reRead rest sent
      · exact fun rest => (pass_LOOK_empty m he).at_first rest
      · intro rest sent
        simp only [he, ne_eq, not_true_eq_false, if_false]
        exact (pass_GET_empty m he).at_reRead rest sent
      · intro rest
        simp only [he, ne_eq, not_true_eq_false, if_false]
        exact (pass_GET_empty m he).at_first rest
    · obtain ⟨c, u, hcub, hc⟩ := exists_split_of_mem hwf.2
      have hlen : m.cubby.length = 256 := hwf.1
      refine ⟨c, fun h => absurd h he, fun _ => ?_, ?_, ?_, ?_, ?_⟩
      · rw [hcub]
        exact cstr_append_nul c u hc
      · exact fun rest sent => (pass_LOOK_full m c u he hcub hc hlen).at_reRead rest sent
      · exact fun rest => (pass_LOOK_full m c u he hcub hc hlen).at_first rest
      · intro rest sent
        simp only [he, ne_eq, not_false_eq_true, if_true]
        exact (pass_GET_full m c u he hcub hc hlen).at_reRead rest sent
      · intro rest
        simp only [he, ne_eq, not_false_eq_true, if_true]
        exact (pass_GET_full m c u he hcub hc hlen).at_first rest
  · intro x hx hl n rest sent
    have h0 := zero_not_mem_of_plain hx
    rw [(pass_PUT m x hx hl).at_reRead, reRead_looks x h0 (by omega),
      (pass_on_stored x h0 (by omega)).1.at_reRead]

set_option maxRecDepth 100000 in
/-- C3, witness: a mailbox that holds `x`; after `PUT x`, two `LOOK`s and a `GET`. -/
theorem look_is_nondestructive_get_witness :
    (Mailbox.wf { cubby := padded (bytes "x"), empty := 1 }) ∧
    reRead { cubby := padded (bytes "x"), empty := 1 }
        [bytes "PUT x", bytes "LOOK", bytes "LOOK", bytes "GET"] [] =
      some { box := initMailbox,
             sent := bytes "!PUT: ok\n> !LOOK: x\n> !LOOK: x\n> !GET: x\n> ",
             closed := false } :=
  ⟨by decide,
   (look_is_nondestructive_get { cubby := padded (bytes "x"), empty := 1 } (by decide)).2
     (bytes "x") (by decide) (by decide) 2 [] []⟩

/-- C4: empty read.  On the mailbox as `main` sets it up, `GET` sends exactly
`!GET: <no message stored>\n> `, `LOOK` sends exactly `!LOOK: <no message stored>\n> `,
`DROP` sends `!DROP: ok\n> `, and after each of them the handler goes on with that same
initial mailbox; this holds inside the loop and for the first command after the
welcome. -/
theorem empty_read (rest : List (List Nat)) (sent : List Nat) :
    reRead initMailbox (bytes "GET" :: rest) sent =
      reRead initMailbox rest (sent ++ bytes "!GET: <no message stored>\n> ") ∧
    reRead initMailbox (bytes "LOOK" :: rest) sent =
      reRead initMailbox rest (sent ++ bytes "!LOOK: <no message stored>\n> ") ∧
    reRead initMailbox (bytes "DROP" :: rest) sent =
      reRead initMailbox rest (sent ++ bytes "!DROP: ok\n> ") ∧
    handleRequests initMailbox (bytes "GET" :: rest) =
      reRead initMailbox rest (bytes (responses .WELCOME) ++ bytes "\n> " ++
        bytes "!GET: <no message stored>\n> ") ∧
    handleRequests initMailbox (bytes "LOOK" :: rest) =
      reRead initMailbox rest (bytes (responses .WELCOME) ++ bytes "\n> " ++
        bytes "!LOOK: <no message stored>\n> ") ∧
    handleRequests initMailbox (bytes "DROP" :: rest) =
      reRead initMailbox rest (bytes (responses .WELCOME) ++ bytes "\n> " ++
        bytes "!DROP: ok\n> ") ∧
    reRead initMailbox [bytes "GET"] sent =
      some { box := initMailbox, sent := sent ++ bytes "!GET: <no message stored>\n> ",
             closed := false } ∧
    reRead initMailbox [bytes "LOOK"] sent =
      some { box := initMailbox, sent := sent ++ bytes "!LOOK: <no message stored>\n> ",
             closed := false } ∧
    reRead initMailbox [bytes "DROP"] sent =
      some { box := initMailbox, sent := sent ++ bytes "!DROP: ok\n> ", closed := false } := by
  have hg := pass_GET_empty initMailbox rfl
  have hl := pass_LOOK_empty initMailbox rfl
  have hd : Pass initMailbox (bytes "DROP") initMailbox (bytes "!DROP: ok\n> ") :=
    pass_DROP initMailbox
  exact ⟨hg.at_reRead rest sent, hl.at_reRead rest sent, hd.at_reRead rest sent,
    hg.at_first rest, hl.at_first rest, hd.at_first rest,
    hg.at_reRead [] sent, hl.at_reRead [] sent, hd.at_reRead [] sent⟩

/-- C5: `DROP` vacates without revealing.  For every mailbox state `m`, `DROP` sends
exactly `!DROP: ok\n> `, whatever is stored, and the handler goes on with an unoccupied
mailbox: the initial one when `m` was occupied, `m` itself otherwise, which is the
initial one too when the unoccupied `m` held only zero bytes, as every unoccupied mailbox
that a handler leaves does.  A `GET` or `LOOK` that follows sends the sentinel, and a second
`DROP` leaves the same mailbox as the first. -/
theorem drop_vacates (m : Mailbox) (rest : List (List Nat)) (sent : List Nat) :
    reRead m (bytes "DROP" :: rest) sent =
      reRead (if m.empty ≠ 0 then initMailbox else m) rest (sent ++ bytes "!DROP: ok\n> ") ∧
    handleRequests m (bytes "DROP" :: rest) =
      reRead (if m.empty ≠ 0 then initMailbox else m) rest
        (bytes (responses .WELCOME) ++ bytes "\n> " ++ bytes "!DROP: ok\n> ") ∧
    (if m.empty ≠ 0 then initMailbox else m).empty = 0 ∧
    ((m.empty = 0 → m.cubby = zeroed) →
      (if m.empty ≠ 0 then initMailbox else m) = initMailbox) ∧
    reRead m (bytes "DROP" :: bytes "GET" :: rest) sent =
      reRead (if m.empty ≠ 0 then initMailbox else m) rest
        (sent ++ bytes "!DROP: ok\n> " ++ bytes "!GET: <no message stored>\n> ") ∧
    reRead m (bytes "DROP" :: bytes "LOOK" :: rest) sent =
      reRead (if m.empty ≠ 0 then initMailbox else m) rest
        (sent ++ bytes "!DROP: ok\n> " ++ bytes "!LOOK: <no message stored>\n> ") ∧
    reRead m (bytes "DROP" :: bytes "DROP" :: rest) sent =
      reRead (if m.empty ≠ 0 then initMailbox else m) rest
        (sent ++ bytes "!DROP: ok\n> " ++ bytes "!DROP: ok\n> ") := by
  have hd := pass_DROP m
  have he : (if m.empty ≠ 0 then initMailbox else m).empty = 0 := by
    by_cases h : m.empty = 0
    · simp [h]
    · simp only [ne_eq, h, not_false_eq_true, if_true]
      rfl
  have hd2 := pass_DROP (if m.empty ≠ 0 then initMailbox else m)
  simp only [he, ne_eq, not_true_eq_false, if_false] at hd2
  refine ⟨hd.at_reRead rest sent, hd.at_first rest, he, ?_, ?_, ?_, ?_⟩
  · intro hz
    by_cases h : m.empty = 0
    · simp only [h, ne_eq, not_true_eq_false, if_false]
      cases m with
      | mk cubby empty =>
        simp only at h hz
        rw [h, hz h]
        rfl
    · simp [h]
  · rw [hd.at_reRead, (pass_GET_empty _ he).at_reRead]
  · rw [hd.at_reRead, (pass_LOOK_empty _ he).at_reRead]
  · rw [hd.at_reRead]
    exact hd2.at_reRead rest _

set_option maxRecDepth 100000 in
/-- C5, witness: `DROP` on a mailbox that holds `secret`, then `GET`. -/
theorem drop_vacates_witness :
    reRead { cubby := padded (bytes "secret"), empty := 1 } [bytes "DROP", bytes "GET"] [] =
      some { box := initMailbox,
             sent := bytes "!DROP: ok\n> !GET: <no message stored>\n> ", closed := false } :=
  (drop_vacates { cubby := padded (bytes "secret"), empty := 1 } [] []).2.2.2.2.1

set_option maxRecDepth 100000 in
/-- C6, as stated, fails for long runs of appended CR/LF bytes: `GET` with 253 LF bytes
is a line of 256 bytes that fills `tmpReq`, so `getCommand` reads past the buffer and no
response is guaranteed, while `GET` alone is answered; and when `GET` with 252 LF bytes
arrives and two more LF bytes arrive after it, the handler answers the `GET`, takes the
two LF bytes for an empty command, sends `!QUIT: ok` and closes, where after `GET` alone
it stays open. -/
theorem keyword_eol_counterexample :
    (∀ c ∈ List.replicate 253 10, eol c) ∧
    reRead initMailbox [bytes "GET" ++ List.replicate 253 10] [] = none ∧
    reRead initMailbox [bytes "GET"] [] =
      some { box := initMailbox, sent := bytes "!GET: <no message stored>\n> ",
             closed := false } ∧
    reRead initMailbox [bytes "GET" ++ List.replicate 252 10, [10, 10]] [] =
      some { box := initMailbox,
             sent := bytes "!GET: <no message stored>\n> !QUIT: ok\n> ", closed := true } := by
  decide

/-- C6, amended: command resolution is case-insensitive and ignores line endings.  For
every keyword `k` among HELP, DROP, GET, LOOK and QUIT, every mixture `w` of upper and
lower case of its letters and any CR/LF bytes `e` appended, as long as the received line
`w ++ e` has at most 255 bytes, the handler does on `w ++ e` exactly what it does on `k`
itself, from every mailbox state and whatever follows: the same bytes sent, the same
mailbox, the same decision to go on or to close. -/
theorem keyword_case_and_eol (k : String) (hk : k ∈ ["HELP", "DROP", "GET", "LOOK", "QUIT"])
    (w e : List Nat) (hw : w.map toupper = bytes k) (he : ∀ c ∈ e, eol c)
    (hl : (w ++ e).length ≤ 255) (m : Mailbox) (rest : List (List Nat)) (sent : List Nat) :
    reRead m ((w ++ e) :: rest) sent = reRead m (bytes k :: rest) sent ∧
    handleRequests m ((w ++ e) :: rest) = handleRequests m (bytes k :: rest) := by
  have hfacts : (∀ c ∈ bytes k, plain c) ∧ (bytes k).take 3 ≠ bytes "PUT" ∧
      (bytes k).length ≤ 255 ∧ (bytes k).map toupper = bytes k := by
    simp only [List.mem_cons, List.mem_singleton, List.not_mem_nil, or_false] at hk
    rcases hk with rfl | rfl | rfl | rfl | rfl <;> decide
  obtain ⟨hkp, hk3, hkl, hku⟩ := hfacts
  have h0 : 0 ∉ bytes k := zero_not_mem_of_plain hkp
  have hg1 := (getCommand_plain_line w e (plain_of_map_toupper hw hkp) he hl).1
  have hg2 := (getCommand_plain_line (bytes k) [] hkp (by simp) (by simpa using hkl)).1
  rw [hw] at hg1
  rw [hku, List.append_nil] at hg2
  obtain ⟨t, ht⟩ := padded_split (bytes k) hkl
  rw [ht] at hg1 hg2
  have hq : ∀ tmp1 tmp2 sent, whileLoop m (cLit "QUIT") 4 tmp1 rest sent =
      whileLoop m (cLit "QUIT") 4 tmp2 rest sent := fun tmp1 tmp2 sent =>
    whileLoop_tmpReq m (bytes "QUIT") [] 4 tmp1 tmp2 (by decide) (by decide) rest sent
  constructor
  · simp only [reRead, hg1, hg2, Option.some_bind]
    cases strlen (bytes k ++ 0 :: t) with
    | none => rfl
    | some n =>
      simp only [Option.some_bind]
      split
      · exact hq _ _ _
      · exact whileLoop_tmpReq m (bytes k) t n _ _ h0 hk3 rest sent
  · simp only [handleRequests, hg1, hg2, Option.some_bind]
    cases sendResponse .WELCOME 1 zeroed with
    | none => rfl
    | some hello =>
      simp only [Option.some_bind]
      cases strlen (bytes k ++ 0 :: t) with
      | none => rfl
      | some n =>
        simp only [Option.some_bind]
        exact whileLoop_tmpReq m (bytes k) t n _ _ h0 hk3 rest hello

set_option maxRecDepth 100000 in
/-- C6, witness: `GeT` with CR LF is handled as `GET`. -/
theorem keyword_case_and_eol_witness :
    reRead { cubby := padded (bytes "m"), empty := 1 } [bytes "GeT\r\n", bytes "quit\n"] [] =
      reRead { cubby := padded (bytes "m"), empty := 1 } [bytes "GET", bytes "quit\n"] [] ∧
    reRead { cubby := padded (bytes "m"), empty := 1 } [bytes "GET", bytes "quit\n"] [] =
      some { box := initMailbox, sent := bytes "!GET: m\n> !QUIT: ok\n> ", closed := true } :=
  ⟨(keyword_case_and_eol "GET" (by decide) (bytes "GeT") [13, 10] (by decide) (by decide)
      (by decide) { cubby := padded (bytes "m"), empty := 1 } [bytes "quit\n"] []).1,
   by decide⟩

/-- An unknown command read inside the loop is non-fatal.  For every mailbox state `m` and
every input whose normalised text `s` is non-empty, is not exactly HELP, DROP, GET, LOOK or
QUIT and does not begin with PUT, the handler sends exactly `!NOT SUPPORTED\n> ` and goes on
with the same mailbox `m`, inside the loop and for the first command after the welcome; read
inside the loop, the commands that follow give the same result as without the unknown
command, the result of `reRead m rest []`, after `sent ++ "!NOT SUPPORTED\n> "` instead of
after `sent`.  Nothing is said here of the session without the unknown command when that
command was the first of the connection: what follows it is then read at the first read. -/
theorem unknown_command_nonfatal (m : Mailbox) (arrived s : List Nat)
    (rest : List (List Nat)) (sent : List Nat) (hn : normalized arrived = some s)
    (hne : s ≠ []) (h1 : s ≠ bytes "HELP") (h2 : s ≠ bytes "DROP") (h3 : s ≠ bytes "GET")
    (h4 : s ≠ bytes "LOOK") (h5 : s ≠ bytes "QUIT") (h6 : s.take 3 ≠ bytes "PUT") :
    reRead m (arrived :: rest) sent = reRead m rest (sent ++ bytes "!NOT SUPPORTED\n> ") ∧
    handleRequests m (arrived :: rest) =
      reRead m rest (bytes (responses .WELCOME) ++ bytes "\n> " ++ bytes "!NOT SUPPORTED\n> ") ∧
    reRead m (arrived :: rest) sent =
      (reRead m rest []).map (Result.prepend (sent ++ bytes "!NOT SUPPORTED\n> ")) ∧
    reRead m rest sent = (reRead m rest []).map (Result.prepend sent) := by
  have hp := pass_unknown m arrived s hn hne h1 h2 h3 h4 h5 h6
  refine ⟨hp.at_reRead rest sent, hp.at_first rest, ?_, reRead_prepend rest m sent⟩
  rw [hp.at_reRead rest sent]
  exact reRead_prepend rest m _

set_option maxRecDepth 100000 in
/-- The unknown command `FOO` read inside the loop, between other commands. -/
theorem unknown_command_nonfatal_witness :
    normalized (bytes "FOO") = some (bytes "FOO") ∧
    reRead initMailbox [bytes "FOO", bytes "PUT x", bytes "GET"] [] =
      some { box := initMailbox, sent := bytes "!NOT SUPPORTED\n> !PUT: ok\n> !GET: x\n> ",
             closed := false } :=
  ⟨by decide,
   (unknown_command_nonfatal initMailbox (bytes "FOO") (bytes "FOO")
     [bytes "PUT x", bytes "GET"] [] (by decide) (by decide) (by decide) (by decide) (by decide)
     (by decide) (by decide) (by decide)).1⟩

set_option maxRecDepth 100000 in
/-- C7, the code at the failing input: an unknown command as the first command of a
connection, followed by an empty command.  After `FOO` the CR LF that follows is read at
the re-read inside the loop (lines 351-360), is turned into `QUIT` and ends the session:
whatever follows, a `GET` for one, is never handled.  Without `FOO` the same CR LF is the
first read (lines 225-227), which has no test for an empty command: it is answered
`!NOT SUPPORTED\n> ` and the handler goes on, so the `GET` is answered.  The commands after
the unknown command are therefore not handled as if it had not been sent. -/
theorem unknown_first_then_empty_read (m : Mailbox) (rest : List (List Nat)) :
    normalized (bytes "FOO") = some (bytes "FOO") ∧
    normalized [13, 10] = some [] ∧
    handleRequests m (bytes "FOO" :: [13, 10] :: rest) =
      some { box := m,
             sent := frame .WELCOME [] ++ bytes "!NOT SUPPORTED\n> " ++ bytes "!QUIT: ok\n> ",
             closed := true } ∧
    handleRequests m ([13, 10] :: rest) =
      reRead m rest (frame .WELCOME [] ++ bytes "!NOT SUPPORTED\n> ") ∧
    handleRequests initMailbox [bytes "FOO", [13, 10], bytes "GET"] =
      some { box := initMailbox,
             sent := frame .WELCOME [] ++ bytes "!NOT SUPPORTED\n> !QUIT: ok\n> ",
             closed := true } ∧
    handleRequests initMailbox [[13, 10], bytes "GET"] =
      some { box := initMailbox,
             sent := frame .WELCOME [] ++
               bytes "!NOT SUPPORTED\n> !GET: <no message stored>\n> ",
             closed := false } := by
  have hfoo : normalized (bytes "FOO") = some (bytes "FOO") := by decide
  have hcr : normalized [13, 10] = some [] := by decide
  have hp := pass_unknown m (bytes "FOO") (bytes "FOO") hfoo (by decide) (by decide)
    (by decide) (by decide) (by decide) (by decide) (by decide)
  refine ⟨hfoo, hcr, ?_, ?_, by decide, by decide⟩
  · rw [hp.at_first, reRead_empty_command m [13, 10] hcr]
    rfl
  · have hd := dispatch_unknown m [] (List.replicate 255 0) (padded [13, 10]) (by simp)
      (by decide) (by decide) (by decide) (by decide) (by decide)
    exact handleRequests_pass m m [13, 10] zeroed (padded [13, 10]) [] _ (by decide)
      (by decide) (by decide) hd rest

set_option maxRecDepth 100000 in
/-- C8, as stated, fails: the normalised texts of `PUTTER` and `PUTxyz` hold no space
and are none of the six tokens, yet both lines are resolved to `PUT`, because only the
first three bytes of the command are compared (line 324): the handler sends `!PUT: ok`
and stores the bytes from `tmpReq[4]` on, `ER` and `yz`. -/
theorem put_prefix_counterexample :
    normalized (bytes "PUTTER") = some (bytes "PUTTER") ∧
    (bytes "PUTTER").takeWhile (· ≠ 32) ∉
      [bytes "HELP", bytes "DROP", bytes "GET", bytes "LOOK", bytes "PUT", bytes "QUIT"] ∧
    reRead initMailbox [bytes "PUTTER"] [] =
      some { box := { cubby := padded (bytes "ER"), empty := 1 },
             sent := bytes "!PUT: ok\n> ", closed := false } ∧
    normalized (bytes "PUTxyz") = some (bytes "PUTXYZ") ∧
    (bytes "PUTXYZ").takeWhile (· ≠ 32) ∉
      [bytes "HELP", bytes "DROP", bytes "GET", bytes "LOOK", bytes "PUT", bytes "QUIT"] ∧
    reRead initMailbox [bytes "PUTxyz", bytes "GET"] [] =
      some { box := initMailbox, sent := bytes "!PUT: ok\n> !GET: yz\n> ",
             closed := false } := by
  decide

/-- C8, amended: the keywords HELP, DROP, GET, LOOK and QUIT are matched exactly, PUT by
its first three bytes.  For every input whose normalised text `s` is non-empty, is not,
taken up to its first space, one of the six tokens, and does not begin with the bytes
PUT, the handler sends `!NOT SUPPORTED\n> ` and goes on with the mailbox unchanged.
Every received line without NUL, of at most 255 bytes, whose normalised text begins with
PUT is resolved to PUT, whatever follows the three bytes: the handler sends `!PUT: ok\n> `
and stores the received bytes from the fifth on, line-ending bytes removed. -/
theorem put_resolved_by_three_bytes (m : Mailbox) (arrived s : List Nat)
    (rest : List (List Nat)) (sent : List Nat) (hn : normalized arrived = some s) :
    (s ≠ [] →
      s.takeWhile (· ≠ 32) ∉
        [bytes "HELP", bytes "DROP", bytes "GET", bytes "LOOK", bytes "PUT", bytes "QUIT"] →
      s.take 3 ≠ bytes "PUT" →
      reRead m (arrived :: rest) sent = reRead m rest (sent ++ bytes "!NOT SUPPORTED\n> ") ∧
      handleRequests m (arrived :: rest) =
        reRead m rest
          (bytes (responses .WELCOME) ++ bytes "\n> " ++ bytes "!NOT SUPPORTED\n> ")) ∧
    (s.take 3 = bytes "PUT" → 0 ∉ arrived → arrived.length ≤ 255 →
      reRead m (arrived :: rest) sent =
        reRead { cubby := padded (dropEol (arrived.drop 4)), empty := 1 } rest
          (sent ++ bytes "!PUT: ok\n> ") ∧
      handleRequests m (arrived :: rest) =
        reRead { cubby := padded (dropEol (arrived.drop 4)), empty := 1 } rest
          (bytes (responses .WELCOME) ++ bytes "\n> " ++ bytes "!PUT: ok\n> ")) := by
  constructor
  · intro hne htok h3
    have hx : ∀ k : List Nat, k.takeWhile (· ≠ 32) ∈
        [bytes "HELP", bytes "DROP", bytes "GET", bytes "LOOK", bytes "PUT", bytes "QUIT"] →
        s ≠ k := by
      intro k hk h
      rw [h] at htok
      exact htok hk
    have hp := pass_unknown m arrived s hn hne (hx _ (by decide)) (hx _ (by decide))
      (hx _ (by decide)) (hx _ (by decide)) (hx _ (by decide)) h3
    exact ⟨hp.at_reRead rest sent, hp.at_first rest⟩
  · intro h3 h0 hl
    have hs := normalized_line arrived h0 hl
    rw [hn] at hs
    have hs' : s = (dropEol arrived).map toupper := Option.some.inj hs
    rw [hs'] at h3
    have hp := pass_PUT_any_tail m arrived h0 hl h3
    exact ⟨hp.at_reRead rest sent, hp.at_first rest⟩

set_option maxRecDepth 100000 in
/-- C8, witness: `FOOBAR x` is not supported, `putty` is a `PUT` of `y`. -/
theorem put_resolved_by_three_bytes_witness :
    normalized (bytes "FOOBAR x") = some (bytes "FOOBAR X") ∧
    reRead initMailbox [bytes "FOOBAR x"] [] =
      some { box := initMailbox, sent := bytes "!NOT SUPPORTED\n> ", closed := false } ∧
    normalized (bytes "putty") = some (bytes "PUTTY") ∧
    reRead initMailbox [bytes "putty"] [] =
      some { box := { cubby := padded (bytes "y"), empty := 1 },
             sent := bytes "!PUT: ok\n> ", closed := false } :=
  ⟨by decide,
   ((put_resolved_by_three_bytes initMailbox (bytes "FOOBAR x") (bytes "FOOBAR X") [] []
      (by decide)).1 (by decide) (by decide) (by decide)).1,
   by decide,
   ((put_resolved_by_three_bytes initMailbox (bytes "putty") (bytes "PUTTY") [] []
      (by decide)).2 (by decide) (by decide) (by decide)).1⟩

set_option maxRecDepth 100000 in
/-- C9, the code at the failing input: when the first read after the welcome yields no
bytes, or only CR LF, the loop is entered with the empty command (line 229 only tests
for `QUIT`), the command is dispatched and answered `!NOT SUPPORTED\n> `, and the handler
reads again instead of terminating.  At the re-read inside the loop (lines 355-360) the
same input does end the session with `!QUIT: ok\n> `. -/
theorem empty_first_read_is_dispatched (m : Mailbox) (rest : List (List Nat))
    (sent : List Nat) :
    handleRequests m ([] :: rest) =
      reRead m rest
        (bytes (responses .WELCOME) ++ bytes "\n> " ++ bytes "!NOT SUPPORTED\n> ") ∧
    handleRequests m ([13, 10] :: rest) =
      reRead m rest
        (bytes (responses .WELCOME) ++ bytes "\n> " ++ bytes "!NOT SUPPORTED\n> ") ∧
    handleRequests m [[]] =
      some { box := m,
             sent := bytes (responses .WELCOME) ++ bytes "\n> " ++ bytes "!NOT SUPPORTED\n> ",
             closed := false } ∧
    reRead m ([] :: rest) sent =
      some { box := m, sent := sent ++ bytes "!QUIT: ok\n> ", closed := true } ∧
    reRead m ([13, 10] :: rest) sent =
      some { box := m, sent := sent ++ bytes "!QUIT: ok\n> ", closed := true } := by
  have hfirst : ∀ arrived : List Nat, getCommand arrived = some (zeroed, padded arrived) →
      handleRequests m (arrived :: rest) =
        reRead m rest
          (bytes (responses .WELCOME) ++ bytes "\n> " ++ bytes "!NOT SUPPORTED\n> ") := by
    intro arrived hg
    have hd := dispatch_unknown m [] (List.replicate 255 0) (padded arrived) (by simp)
      (by decide) (by decide) (by decide) (by decide) (by decide)
    exact handleRequests_pass m m arrived zeroed (padded arrived) [] _ hg (by decide)
      (by decide) hd rest
  have h1 := hfirst [] (by decide)
  have h2 := hfirst [13, 10] (by decide)
  refine ⟨h1, h2, ?_, reRead_empty_command m [] (by decide) rest sent,
    reRead_empty_command m [13, 10] (by decide) rest sent⟩
  · have hd := dispatch_unknown m [] (List.replicate 255 0) (padded []) (by simp)
      (by decide) (by decide) (by decide) (by decide) (by decide)
    exact handleRequests_pass m m [] zeroed (padded []) [] _ (by decide) (by decide)
      (by decide) hd []

set_option maxRecDepth 100000 in
/-- C10, as stated, fails.  The line of a `PUT` with a payload of 300 bytes `a` has 304
bytes and `recv` takes at most 256 of them.  When it takes 256, `tmpReq` holds no NUL
and `getCommand` reads past its end, so no response is guaranteed.  When the first 255
bytes arrive first and the other 49 after them, the first read stores 251 payload bytes,
the 49 bytes left are handled as a command of their own and answered
`!NOT SUPPORTED\n> `, and `GET` returns 251 bytes, not 255. -/
theorem truncation_counterexample :
    (bytes "PUT " ++ List.replicate 300 97).length = 304 ∧
    reRead initMailbox
      [(bytes "PUT " ++ List.replicate 300 97).take 256,
       (bytes "PUT " ++ List.replicate 300 97).drop 256, bytes "GET"] [] = none ∧
    reRead initMailbox
      [(bytes "PUT " ++ List.replicate 300 97).take 255,
       (bytes "PUT " ++ List.replicate 300 97).drop 255, bytes "GET"] [] =
      some { box := initMailbox,
             sent := bytes "!PUT: ok\n> !NOT SUPPORTED\n> !GET: " ++ List.replicate 251 97 ++
               bytes "\n> ",
             closed := false } ∧
    List.replicate 251 97 ≠ (List.replicate 300 97).take 255 := by
  decide

/-- C10, amended: a long `PUT` is cut by the receive buffer and its excess is handled as
a further command.  For every payload `p` of 300 bytes without NUL, CR or LF, when the
first 255 bytes of the line `"PUT " ++ p` are received first and the other 49 after
them, the first read stores the first 251 bytes of `p` and sends `!PUT: ok\n> `; the 49
bytes left are handled as the next command: when they begin with PUT in any letter case
they are a `PUT` that replaces the stored message by the last 45 bytes of `p`, otherwise
they are answered `!NOT SUPPORTED\n> `.  A `GET` that follows returns those 45 bytes, or
the first 251 bytes of `p`; it never returns 255 bytes. -/
theorem long_put_is_split (m : Mailbox) (p : List Nat) (rest : List (List Nat))
    (sent : List Nat) (hp : ∀ c ∈ p, plain c) (hlen : p.length = 300) :
    (bytes "PUT " ++ p).take 255 = bytes "PUT " ++ p.take 251 ∧
    (bytes "PUT " ++ p).drop 255 = p.drop 251 ∧
    reRead m ((bytes "PUT " ++ p.take 251) :: p.drop 251 :: bytes "GET" :: rest) sent =
      if ((p.drop 251).take 3).map toupper = bytes "PUT" then
        reRead initMailbox rest
          (sent ++ bytes "!PUT: ok\n> " ++ bytes "!PUT: ok\n> " ++
            (bytes "!GET: " ++ p.drop 255 ++ bytes "\n> "))
      else
        reRead initMailbox rest
          (sent ++ bytes "!PUT: ok\n> " ++ bytes "!NOT SUPPORTED\n> " ++
            (bytes "!GET: " ++ p.take 251 ++ bytes "\n> ")) := by
  have hq : ∀ c ∈ p.drop 251, plain c := fun c hc => hp c (List.mem_of_mem_drop hc)
  have ht : ∀ c ∈ p.take 251, plain c := fun c hc => hp c (List.mem_of_mem_take hc)
  have hql : (p.drop 251).length = 49 := by rw [List.length_drop, hlen]
  have htl : (p.take 251).length = 251 := by rw [List.length_take, hlen]; rfl
  have hq0 := zero_not_mem_of_plain hq
  have hdq : dropEol (p.drop 251) = p.drop 251 := by
    have := (line_facts (p.drop 251) [] hq (by simp)).2
    rwa [List.append_nil] at this
  have h1 := pass_PUT m (p.take 251) ht (by omega)
  refine ⟨?_, ?_, ?_⟩
  · have : (bytes "PUT ").length = 4 := by decide
    rw [List.take_append_eq_append_take, this, List.take_of_length_le (by omega)]
  · have : (bytes "PUT ").length = 4 := by decide
    rw [List.drop_append_eq_append_drop, this, List.drop_of_length_le (by omega),
      List.nil_append]
  · rw [h1.at_reRead]
    split
    next h3 =>
      have h3' : ((dropEol (p.drop 251)).map toupper).take 3 = bytes "PUT" := by
        rw [hdq, ← List.map_take]
        exact h3
      have h2 := pass_PUT_any_tail { cubby := padded (p.take 251), empty := 1 } (p.drop 251)
        hq0 (by omega) h3'
      have hd4 : dropEol ((p.drop 251).drop 4) = p.drop 255 := by
        rw [List.drop_drop]
        have h := (line_facts (p.drop 255) [] (fun c hc => hp c (List.mem_of_mem_drop hc))
          (by simp)).2
        rwa [List.append_nil] at h
      rw [hd4] at h2
      have h5 : (p.drop 255).length ≤ 255 := by rw [List.length_drop, hlen]; omega
      have h0 : 0 ∉ p.drop 255 := fun h => (hp 0 (List.mem_of_mem_drop h)).1 rfl
      rw [h2.at_reRead, (pass_on_stored _ h0 h5).1.at_reRead]
    next h3 =>
      have hn := normalized_line (p.drop 251) hq0 (by omega)
      rw [hdq] at hn
      have hsl : ((p.drop 251).map toupper).length = 49 := by rw [List.length_map, hql]
      have hx : ∀ k : List Nat, k.length < 49 → (p.drop 251).map toupper ≠ k := by
        intro k hk h
        rw [h] at hsl
        omega
      have h3' : ((p.drop 251).map toupper).take 3 ≠ bytes "PUT" := by
        rw [← List.map_take]
        exact h3
      have h2 := pass_unknown { cubby := padded (p.take 251), empty := 1 } (p.drop 251) _ hn
        (hx _ (by decide)) (hx _ (by decide)) (hx _ (by decide)) (hx _ (by decide))
        (hx _ (by decide)) (hx _ (by decide)) h3'
      rw [h2.at_reRead,
        (pass_on_stored _ (zero_not_mem_of_plain ht) (by omega)).1.at_reRead]

set_option maxRecDepth 100000 in
/-- C10, witness: the payload of 300 bytes `b`. -/
theorem long_put_is_split_witness :
    reRead initMailbox
      [bytes "PUT " ++ (List.replicate 300 98).take 251, (List.replicate 300 98).drop 251,
       bytes "GET"] [] =
      some { box := initMailbox,
             sent := bytes "!PUT: ok\n> " ++ bytes "!NOT SUPPORTED\n> " ++
               (bytes "!GET: " ++ List.replicate 251 98 ++ bytes "\n> "),
             closed := false } :=
  (long_put_is_split initMailbox (List.replicate 300 98) [] [] (by decide) (by decide)).2.2

/-- C16: `getCommand` equals its reference definition.  For all received bytes with at most
255 bytes before the first NUL (of the bytes themselves or of the zeroed buffer after
them), the command `getCommand` returns is the buffer that holds `normalizeRef arrived`:
the bytes up to the first NUL, CR and LF deleted wherever they occur, the other bytes
upper-cased, in order.  The result has no NUL, CR, LF or lower-case ASCII letter, is no
longer than the input, and normalising it again changes nothing. -/
theorem getCommand_refines_reference (arrived : List Nat)
    (h : (arrived.takeWhile fun c => c ≠ 0).length ≤ 255) :
    getCommand arrived = some (padded (normalizeRef arrived), recv zeroed arrived) ∧
    normalized arrived = some (normalizeRef arrived) ∧
    normalizeRef (recv zeroed arrived) = normalizeRef arrived ∧
    (∀ c ∈ normalizeRef arrived, c ≠ 0 ∧ c ≠ 10 ∧ c ≠ 13 ∧ ¬ (97 ≤ c ∧ c ≤ 122)) ∧
    (normalizeRef arrived).length ≤ (arrived.takeWhile fun c => c ≠ 0).length ∧
    (normalizeRef arrived).length ≤ arrived.length ∧
    normalizeRef (normalizeRef arrived) = normalizeRef arrived ∧
    normalized (normalizeRef arrived) = some (normalizeRef arrived) := by
  obtain ⟨t, ht⟩ := recv_split arrived h
  have hx := takeWhile_not_mem arrived
  obtain ⟨hg, hc, hl⟩ := getCommand_of_split arrived _ t hx ht
  have hmem : ∀ c ∈ normalizeRef arrived, c ≠ 0 ∧ c ≠ 10 ∧ c ≠ 13 ∧ ¬ (97 ≤ c ∧ c ≤ 122) :=
    fun c hc => normalizeRef_mem hc
  have hlen : (normalizeRef arrived).length ≤ (arrived.takeWhile fun c => c ≠ 0).length := by
    rw [normalizeRef_eq, List.length_map]
    exact dropEol_length_le _
  have hfix := normalizeRef_fixed hmem
  have hr0 : 0 ∉ normalizeRef arrived := fun h0 => (hmem 0 h0).1 rfl
  refine ⟨hg, ?_, ?_, hmem, hlen, ?_, hfix, ?_⟩
  · rw [normalized, hg, Option.some_bind]
    exact hc
  · rw [normalizeRef_eq, normalizeRef_eq, ht, takeWhile_append_nul _ t hx]
  · exact le_trans hlen (List.takeWhile_sublist _).length_le
  · have h2 := normalized_line (normalizeRef arrived) hr0 (by rw [normalizeRef_eq]; exact hl)
    rw [h2]
    have h3 : (normalizeRef arrived).takeWhile (fun c => c ≠ 0) = normalizeRef arrived := by
      apply List.takeWhile_eq_self_iff.2
      intro c hc
      simpa using (hmem c hc).1
    have h4 := hfix
    rw [normalizeRef_eq, h3] at h4
    rw [h4]

set_option maxRecDepth 100000 in
/-- C16, witness: the bytes `GeT` CR LF, and a line with bytes after a NUL. -/
theorem getCommand_refines_reference_witness :
    normalized (bytes "GeT\r\n") = some (bytes "GET") ∧
    normalized (bytes "p\nut a\rb" ++ 0 :: bytes "rest") = some (bytes "PUT AB") :=
  ⟨(getCommand_refines_reference (bytes "GeT\r\n") (by decide)).2.1,
   (getCommand_refines_reference (bytes "p\nut a\rb" ++ 0 :: bytes "rest") (by decide)).2.1⟩

set_option maxRecDepth 100000 in
/-- C11, as stated, fails in one direction of its equivalence: the line `PUT ` with an
empty payload is handled as a `PUT`, which sets the indicator whatever the payload is
(line 336), so the mailbox reached from the initial one is occupied while its content
has length zero; the `GET` that follows sends an empty payload, not the sentinel. -/
theorem occupied_with_empty_content_counterexample :
    handleRequests initMailbox [bytes "PUT "] =
      some { box := { cubby := zeroed, empty := 1 },
             sent := frame .WELCOME [] ++ bytes "!PUT: ok\n> ", closed := false } ∧
    (({ cubby := zeroed, empty := 1 } : Mailbox).empty ≠ 0 ∧
      strlen ({ cubby := zeroed, empty := 1 } : Mailbox).cubby = some 0) ∧
    handleRequests initMailbox [bytes "PUT ", bytes "GET"] =
      some { box := initMailbox,
             sent := frame .WELCOME [] ++ bytes "!PUT: ok\n> " ++ bytes "!GET: \n> ",
             closed := false } := by
  decide

/-- C11, amended: mailbox invariant.  From the initial mailbox, and from every mailbox
that stands for an abstract one (`slot`: no message, or a message without NUL of at most
255 bytes), a connection that receives any sequence of requests of at most 255 bytes
each returns, and leaves the mailbox that stands for `slotAfterReads`: the payload of the
most recent `PUT` that no later `GET` or `DROP` has removed, or no message.  In that
mailbox, if the indicator is clear the content has length zero (the converse fails: a
`PUT` with an empty payload leaves an occupied mailbox with empty content), and if it is
set the content is that payload. -/
theorem mailbox_invariant (slot : Option (List Nat)) (reads : List (List Nat))
    (hok : SlotOK slot) (hl : ∀ a ∈ reads, a.length ≤ 255) :
    ∃ r, handleRequests (Mailbox.ofSlot slot) reads = some r ∧
      r.box = Mailbox.ofSlot (slotAfterReads true slot reads) ∧
      SlotOK (slotAfterReads true slot reads) ∧
      (r.box.empty = 0 → slotAfterReads true slot reads = none ∧ strlen r.box.cubby = some 0) ∧
      (r.box.empty ≠ 0 →
        ∃ p, slotAfterReads true slot reads = some p ∧ cstr r.box.cubby = some p) := by
  obtain ⟨r, hr, hbox, hok'⟩ := handleRequests_ofSlot reads hl slot hok
  refine ⟨r, hr, hbox, hok', ?_, ?_⟩
  · intro he
    rw [hbox] at he ⊢
    cases hs : slotAfterReads true slot reads with
    | none => exact ⟨rfl, by decide⟩
    | some p =>
      rw [hs] at he
      simp [Mailbox.ofSlot] at he
  · intro he
    rw [hbox] at he ⊢
    cases hs : slotAfterReads true slot reads with
    | none =>
      rw [hs] at he
      exact absurd rfl he
    | some p =>
      obtain ⟨hp0, hpl⟩ := hok' p hs
      exact ⟨p, rfl, cstr_padded p hp0 hpl⟩

set_option maxRecDepth 100000 in
/-- C11, witness: after `PUT a`, `PUT b`, `LOOK`, `FOO`, `GET`, `PUT c`, `HELP` on the
initial mailbox the connection has returned and the mailbox holds `c`. -/
theorem mailbox_invariant_witness :
    ∃ r, handleRequests initMailbox
        [bytes "PUT a", bytes "PUT b", bytes "LOOK", bytes "FOO", bytes "GET", bytes "PUT c",
          bytes "HELP"] = some r ∧
      r.box = { cubby := padded (bytes "c"), empty := 1 } := by
  obtain ⟨r, hr, hbox, -⟩ := mailbox_invariant none
    [bytes "PUT a", bytes "PUT b", bytes "LOOK", bytes "FOO", bytes "GET", bytes "PUT c",
      bytes "HELP"] (fun p hp => by cases hp) (by decide)
  have hs : slotAfterReads true none
      [bytes "PUT a", bytes "PUT b", bytes "LOOK", bytes "FOO", bytes "GET", bytes "PUT c",
        bytes "HELP"] = some (bytes "c") := by decide
  rw [hs] at hbox
  exact ⟨r, hr, hbox⟩

/-- C17: in every mailbox reachable from the initial one by any number of connections,
one at a time, each handling any sequence of received requests, a clear indicator means
that the whole content buffer, all its 256 bytes, is zero: nothing of a retrieved, dropped
or overwritten message is left in an unoccupied mailbox. -/
theorem unoccupied_is_zeroed (m : Mailbox) (h : Reachable m) (he : m.empty = 0) :
    m.cubby = List.replicate 256 0 ∧ m.cubby.length = 256 ∧ ∀ c ∈ m.cubby, c = 0 := by
  have hz : m.cubby = zeroed := (reachable_sound h).2 he
  have hr : m.cubby = List.replicate 256 0 := hz
  refine ⟨hr, ?_, ?_⟩
  · rw [hr, List.length_replicate]
  · intro c hc
    rw [hr] at hc
    exact List.eq_of_mem_replicate hc

set_option maxRecDepth 100000 in
/-- C17, witness: the mailbox left by `PUT secret`, `GET`, and the one left by
`PUT secret`, `PUT x`, `DROP`, `QUIT`. -/
theorem unoccupied_is_zeroed_witness :
    handleRequests initMailbox [bytes "PUT secret", bytes "PUT x", bytes "DROP", bytes "QUIT"] =
      some { box := initMailbox,
             sent := frame .WELCOME [] ++ bytes "!PUT: ok\n> !PUT: ok\n> !DROP: ok\n> !QUIT: ok\n> ",
             closed := true } ∧
    initMailbox.cubby = List.replicate 256 0 :=
  ⟨by decide,
   (unoccupied_is_zeroed initMailbox
     (Reachable.session [bytes "PUT secret", bytes "PUT x", bytes "DROP", bytes "QUIT"]
       { box := initMailbox,
         sent := frame .WELCOME [] ++ bytes "!PUT: ok\n> !PUT: ok\n> !DROP: ok\n> !QUIT: ok\n> ",
         closed := true }
       Reachable.init (by decide)) rfl).1⟩

set_option maxRecDepth 100000 in
/-- C12: response framing of a whole session.  For every connection that reaches
termination, from any mailbox, the reads split into the commands handled, the read that
ends the session (`QUIT`, or an empty command at a read that is not the first) and the
reads never looked at; the bytes sent are the welcome frame, then exactly one frame for
each command handled, in order, and finally the frame of `QUIT`, and nothing else.  A
frame is the catalogue string, the payload, and the prompt `\n> `; the frame of a handled
command has the catalogue string its normalised text resolves to, one of HELP, DROP, GET,
LOOK, PUT and NOT SUPPORTED, and an empty payload unless that is GET or LOOK. -/
theorem session_framing (m : Mailbox) (reads : List (List Nat)) (r : Result)
    (h : handleRequests m reads = some r) (hc : r.closed = true) :
    (∃ (handled : List (List Nat)) (last : List Nat) (ignored : List (List Nat))
      (fs : List (respType × List Nat)),
      reads = handled ++ last :: ignored ∧ List.Forall₂ Answers handled fs ∧
      (normalized last = some (bytes "QUIT") ∨ (normalized last = some [] ∧ handled ≠ [])) ∧
      r.sent = frame .WELCOME [] ++ (fs.map fun f => frame f.1 f.2).flatten ++
        frame .QUIT []) ∧
    (∀ T pl, frame T pl = bytes (responses T) ++ pl ++ bytes "\n> ") ∧
    frame .WELCOME [] =
      bytes "!HELLO: Welcome to the Cubbyhole Server! Try 'help' for a list of commands\n> " ∧
    frame .QUIT [] = bytes "!QUIT: ok\n> " := by
  refine ⟨?_, fun _ _ => rfl, by decide, by decide⟩
  cases reads with
  | nil =>
    simp only [handleRequests, sendResponse_plain, Option.some_bind, Option.some.injEq] at h
    rw [← h] at hc
    cases hc
  | cons a rest =>
    cases hg : getCommand a with
    | none => simp [handleRequests, sendResponse_plain, hg] at h
    | some c =>
      obtain ⟨s, t, rfl, h0, hn⟩ := getCommand_some hg
      rw [handleRequests_cons_cases m a s t _ hg h0] at h
      by_cases hq : s = bytes "QUIT"
      · rw [if_pos hq, Option.some.injEq] at h
        refine ⟨[], a, rest, [], rfl, List.Forall₂.nil, Or.inl (hq ▸ hn), ?_⟩
        rw [← h]
        simp
      · rw [if_neg hq] at h
        obtain ⟨d, hd, hr⟩ := Option.bind_eq_some.1 h
        have hd1 : dispatch m (s ++ 0 :: t) s.length (recv zeroed a) = some (d.1, d.2) := hd
        obtain ⟨pl, hpl, hin, hnil⟩ := dispatch_frame m d.1 s t _ d.2 h0 hq hd1
        obtain ⟨handled, last, ignored, fs, hreads, hall, hlast, hsent⟩ :=
          reRead_framing rest d.1 _ r hr hc
        refine ⟨a :: handled, last, ignored, (resolve s, pl) :: fs, ?_, ?_, ?_, ?_⟩
        · rw [hreads]
          rfl
        · exact List.Forall₂.cons ⟨s, hn, rfl, hin, hnil⟩ hall
        · rcases hlast with hl | hl
          · exact Or.inl hl
          · exact Or.inr ⟨hl, List.cons_ne_nil _ _⟩
        · rw [hsent, hpl]
          simp only [List.map_cons, List.flatten_cons, List.append_assoc]

set_option maxRecDepth 100000 in
/-- C12, witness: the session `PUT hi there`, `GET`, `QUIT` reaches termination, and what
it sends is the welcome frame, two frames and the frame of `QUIT`. -/
theorem session_framing_witness :
    handleRequests initMailbox [bytes "PUT hi there", bytes "GET", bytes "QUIT"] =
      some { box := initMailbox,
             sent := frame .WELCOME [] ++ bytes "!PUT: ok\n> !GET: hi there\n> !QUIT: ok\n> ",
             closed := true } ∧
    ∃ fs : List (respType × List Nat),
      frame .WELCOME [] ++ bytes "!PUT: ok\n> !GET: hi there\n> !QUIT: ok\n> " =
        frame .WELCOME [] ++ (fs.map fun f => frame f.1 f.2).flatten ++ frame .QUIT [] := by
  refine ⟨by decide, ?_⟩
  obtain ⟨handled, last, ignored, fs, -, -, -, hsent⟩ :=
    (session_framing initMailbox [bytes "PUT hi there", bytes "GET", bytes "QUIT"]
      { box := initMailbox,
        sent := frame .WELCOME [] ++ bytes "!PUT: ok\n> !GET: hi there\n> !QUIT: ok\n> ",
        closed := true } (by decide) rfl).1
  exact ⟨fs, hsent⟩

/-- C13: `QUIT` terminates and only `QUIT` does.  For every mailbox state `m` and every
input whose normalised text `s` is not empty: when the handler has handled this input and
nothing after it, it has left its loop if and only if `s` is exactly `QUIT`, at the first
read and at any later read.  On `QUIT` it sends exactly `!QUIT: ok\n> `, leaves the mailbox
as it is, and its result does not depend on the inputs that follow.  On any other text,
for a mailbox whose content is a terminated buffer and a line of at most 255 bytes, it
makes one pass through the loop and goes on with the inputs that follow. -/
theorem quit_and_only_quit (m : Mailbox) (arrived s : List Nat) (rest : List (List Nat))
    (sent : List Nat) (hn : normalized arrived = some s) (hne : s ≠ []) :
    (s = bytes "QUIT" →
      reRead m (arrived :: rest) sent =
        some { box := m, sent := sent ++ bytes "!QUIT: ok\n> ", closed := true } ∧
      handleRequests m (arrived :: rest) =
        some { box := m, sent := frame .WELCOME [] ++ bytes "!QUIT: ok\n> ", closed := true }) ∧
    (∀ r, reRead m [arrived] sent = some r → (r.closed = true ↔ s = bytes "QUIT")) ∧
    (∀ r, handleRequests m [arrived] = some r → (r.closed = true ↔ s = bytes "QUIT")) ∧
    (s ≠ bytes "QUIT" → m.wf → arrived.length ≤ 255 →
      ∃ m1 out, reRead m (arrived :: rest) sent = reRead m1 rest (sent ++ out) ∧
        handleRequests m (arrived :: rest) = reRead m1 rest (frame .WELCOME [] ++ out)) := by
  obtain ⟨t, tmpReq, hg, h0⟩ := getCommand_eq_of_normalized hn
  have hre : ∀ reads sent, reRead m (arrived :: reads) sent =
      if s = bytes "QUIT" then
        some { box := m, sent := sent ++ frame .QUIT [], closed := true }
      else (dispatch m (s ++ 0 :: t) s.length tmpReq).bind fun d =>
        reRead d.1 reads (sent ++ d.2) := by
    intro reads sent
    rw [reRead_cons_cases m arrived s t tmpReq hg h0]
    simp only [hne, false_or]
  have hfi := handleRequests_cons_cases m arrived s t tmpReq hg h0
  have hqf : frame .QUIT [] = bytes "!QUIT: ok\n> " := by decide
  refine ⟨?_, ?_, ?_, ?_⟩
  · intro hq
    rw [hre, hfi, if_pos hq, if_pos hq, hqf]
    exact ⟨rfl, rfl⟩
  · intro r hr
    rw [hre] at hr
    by_cases hq : s = bytes "QUIT"
    · rw [if_pos hq, Option.some.injEq] at hr
      rw [← hr]
      exact ⟨fun _ => hq, fun _ => rfl⟩
    · rw [if_neg hq] at hr
      obtain ⟨d, -, hd⟩ := Option.bind_eq_some.1 hr
      simp only [reRead, Option.some.injEq] at hd
      rw [← hd]
      exact ⟨fun h => (by cases h), fun h => absurd h hq⟩
  · intro r hr
    rw [hfi] at hr
    by_cases hq : s = bytes "QUIT"
    · rw [if_pos hq, Option.some.injEq] at hr
      rw [← hr]
      exact ⟨fun _ => hq, fun _ => rfl⟩
    · rw [if_neg hq] at hr
      obtain ⟨d, -, hd⟩ := Option.bind_eq_some.1 hr
      simp only [reRead, Option.some.injEq] at hd
      rw [← hd]
      exact ⟨fun h => (by cases h), fun h => absurd h hq⟩
  · intro hq hwf hl
    have htmp : tmpReq = padded arrived := by
      obtain ⟨s', t', hc, -, -⟩ := getCommand_some hg
      rw [← recv_zeroed arrived (by omega)]
      exact (Prod.mk.inj hc).2
    obtain ⟨m1, out, hd⟩ := dispatch_total m hwf s t arrived h0 hq hl
    rw [← htmp] at hd
    refine ⟨m1, out, ?_, ?_⟩
    · rw [hre, if_neg hq, hd, Option.some_bind]
    · rw [hfi, if_neg hq, hd, Option.some_bind]

set_option maxRecDepth 100000 in
/-- C13, witness: `quit` with CR LF ends the session and the `GET` after it is not
answered; `QUITS` does not end it and the `GET` after it is answered. -/
theorem quit_and_only_quit_witness :
    normalized (bytes "quit\r\n") = some (bytes "QUIT") ∧
    reRead initMailbox [bytes "quit\r\n", bytes "GET"] [] =
      some { box := initMailbox, sent := bytes "!QUIT: ok\n> ", closed := true } ∧
    normalized (bytes "QUITS") = some (bytes "QUITS") ∧
    reRead initMailbox [bytes "QUITS", bytes "GET"] [] =
      some { box := initMailbox,
             sent := bytes "!NOT SUPPORTED\n> !GET: <no message stored>\n> ",
             closed := false } := by
  refine ⟨by decide, ?_, by decide, ?_⟩
  · exact ((quit_and_only_quit initMailbox (bytes "quit\r\n") (bytes "QUIT") [bytes "GET"] []
      (by decide) (by decide)).1 rfl).1
  · obtain ⟨m1, out, h1, -⟩ := (quit_and_only_quit initMailbox (bytes "QUITS") (bytes "QUITS")
      [bytes "GET"] [] (by decide) (by decide)).2.2.2 (by decide) (by decide) (by decide)
    decide

set_option maxRecDepth 100000 in
/-- C14, the code at the failing interleaving: on a mailbox that holds `m`, when both
handlers test `empty` before either takes the lock, both find the mailbox occupied; the
first then copies and clears it inside its locked section and sends `!GET: m\n> `, and the
second, inside its own locked section, copies the cleared content and sends `!GET: \n> `
with an empty payload, not the sentinel: the whole locked section of the first handler
took effect between the second handler's test and its read.  When one handler makes both
its steps before the other starts, the other sends the sentinel. -/
theorem get_race_interleaving :
    runTwoGets { cubby := padded (bytes "m"), empty := 1 } .start .start
        [true, false, true, false] =
      some (initMailbox, .sent (bytes "!GET: m\n> "), .sent (bytes "!GET: \n> ")) ∧
    runTwoGets { cubby := padded (bytes "m"), empty := 1 } .start .start
        [true, false, false, true] =
      some (initMailbox, .sent (bytes "!GET: \n> "), .sent (bytes "!GET: m\n> ")) ∧
    runTwoGets { cubby := padded (bytes "m"), empty := 1 } .start .start
        [true, true, false, false] =
      some (initMailbox, .sent (bytes "!GET: m\n> "),
        .sent (bytes "!GET: <no message stored>\n> ")) ∧
    bytes "!GET: \n> " ≠ bytes "!GET: <no message stored>\n> " := by
  decide

set_option maxRecDepth 100000 in
/-- C15, as stated, fails: the stored message starts at the fixed offset 4 of the raw
request (`extractPayload`, line 178), not at a place found from the token.  The line
`PUT hi` stores `hi`, not the text ` hi` that stands right after the token; and the
lines in which CR/LF bytes precede or split the token, all recognised as `PUT` because
`getCommand` drops those bytes, store text from another place relative to the token:
CR LF `PUT hi` stores `T hi`, `P` LF `UT hi` and LF `PUT hi` store ` hi`. -/
theorem put_payload_position_counterexample :
    reRead initMailbox [bytes "PUT hi"] [] =
      some { box := { cubby := padded (bytes "hi"), empty := 1 },
             sent := bytes "!PUT: ok\n> ", closed := false } ∧
    normalized (bytes "\r\nPUT hi") = some (bytes "PUT HI") ∧
    reRead initMailbox [bytes "\r\nPUT hi"] [] =
      some { box := { cubby := padded (bytes "T hi"), empty := 1 },
             sent := bytes "!PUT: ok\n> ", closed := false } ∧
    normalized (bytes "P\nUT hi") = some (bytes "PUT HI") ∧
    reRead initMailbox [bytes "P\nUT hi"] [] =
      some { box := { cubby := padded (bytes " hi"), empty := 1 },
             sent := bytes "!PUT: ok\n> ", closed := false } ∧
    reRead initMailbox [bytes "\nPUT hi", bytes "GET"] [] =
      some { box := initMailbox, sent := bytes "!PUT: ok\n> !GET:  hi\n> ",
             closed := false } := by
  decide

/-- C15, amended: `PUT` payload position.  For every received line without NUL, of at
most 255 bytes, whose first three bytes are the token `PUT` in any letter case (`w`), the
message stored is the verbatim text of the line from its fifth byte on, that is the text
`tail.drop 1` after the token and the one byte that follows it, whatever that byte is, to
the end of the line, with the line-ending bytes removed; the handler sends
`!PUT: ok\n> `. -/
theorem put_payload_at_fifth_byte (m : Mailbox) (w tail : List Nat)
    (rest : List (List Nat)) (sent : List Nat) (hw : w.map toupper = bytes "PUT")
    (h0 : 0 ∉ tail) (hl : (w ++ tail).length ≤ 255) :
    (w ++ tail).drop 4 = tail.drop 1 ∧
    reRead m ((w ++ tail) :: rest) sent =
      reRead { cubby := padded (dropEol (tail.drop 1)), empty := 1 } rest
        (sent ++ bytes "!PUT: ok\n> ") ∧
    handleRequests m ((w ++ tail) :: rest) =
      reRead { cubby := padded (dropEol (tail.drop 1)), empty := 1 } rest
        (frame .WELCOME [] ++ bytes "!PUT: ok\n> ") := by
  have hwl : w.length = 3 := by
    have := congrArg List.length hw
    simpa using this
  have hwp : ∀ c ∈ w, plain c := plain_of_map_toupper hw (by decide)
  have hd : (w ++ tail).drop 4 = tail.drop 1 := by
    rw [List.drop_append_eq_append_drop, hwl, List.drop_of_length_le (by omega)]
    rfl
  have h0' : 0 ∉ w ++ tail := by
    intro h
    rcases List.mem_append.1 h with h | h
    · exact (hwp 0 h).1 rfl
    · exact h0 h
  have hwd : dropEol w = w := by
    have := (line_facts w [] hwp (by simp)).2
    rwa [List.append_nil] at this
  have h3 : ((dropEol (w ++ tail)).map toupper).take 3 = bytes "PUT" := by
    have e : dropEol (w ++ tail) = w ++ dropEol tail := by
      rw [dropEol, List.filter_append]
      change dropEol w ++ dropEol tail = _
      rw [hwd]
    rw [e, List.map_append, hw]
    rfl
  have hp := pass_PUT_any_tail m (w ++ tail) h0' hl h3
  rw [hd] at hp
  exact ⟨hd, hp.at_reRead rest sent, hp.at_first rest⟩

set_option maxRecDepth 100000 in
/-- C15, witness: `put hi there` with CR LF stores `hi there`; `PUThello` stores
`ello`. -/
theorem put_payload_at_fifth_byte_witness :
    reRead initMailbox [bytes "put hi there\r\n"] [] =
      some { box := { cubby := padded (bytes "hi there"), empty := 1 },
             sent := bytes "!PUT: ok\n> ", closed := false } ∧
    reRead initMailbox [bytes "PUThello"] [] =
      some { box := { cubby := padded (bytes "ello"), empty := 1 },
             sent := bytes "!PUT: ok\n> ", closed := false } :=
  ⟨(put_payload_at_fifth_byte initMailbox (bytes "put") (bytes " hi there\r\n") [] []
      (by decide) (by decide) (by decide)).2.1,
   (put_payload_at_fifth_byte initMailbox (bytes "PUT") (bytes "hello") [] []
      (by decide) (by decide) (by decide)).2.1⟩

/-- C18: the sentinel cannot be told from a stored message.  The initial, empty mailbox
and the mailbox reached by the line `PUT <no message stored>` are different states; from
both `LOOK` sends the same bytes, `!LOOK: <no message stored>\n> `, and from both `GET`
sends the same bytes, `!GET: <no message stored>\n> `. -/
theorem sentinel_indistinguishable (rest : List (List Nat)) (sent : List Nat) :
    reRead initMailbox [bytes "PUT <no message stored>"] sent =
      some { box := { cubby := padded (bytes "<no message stored>"), empty := 1 },
             sent := sent ++ bytes "!PUT: ok\n> ", closed := false } ∧
    initMailbox ≠ { cubby := padded (bytes "<no message stored>"), empty := 1 } ∧
    reRead initMailbox (bytes "LOOK" :: rest) sent =
      reRead initMailbox rest (sent ++ bytes "!LOOK: <no message stored>\n> ") ∧
    reRead { cubby := padded (bytes "<no message stored>"), empty := 1 }
        (bytes "LOOK" :: rest) sent =
      reRead { cubby := padded (bytes "<no message stored>"), empty := 1 } rest
        (sent ++ bytes "!LOOK: <no message stored>\n> ") ∧
    reRead initMailbox (bytes "GET" :: rest) sent =
      reRead initMailbox rest (sent ++ bytes "!GET: <no message stored>\n> ") ∧
    reRead { cubby := padded (bytes "<no message stored>"), empty := 1 }
        (bytes "GET" :: rest) sent =
      reRead initMailbox rest (sent ++ bytes "!GET: <no message stored>\n> ") := by
  have hput := pass_PUT initMailbox (bytes "<no message stored>") (by decide) (by decide)
  have hs := pass_on_stored (bytes "<no message stored>") (by decide) (by decide)
  refine ⟨hput.at_reRead [] sent, ?_, (pass_LOOK_empty initMailbox rfl).at_reRead rest sent,
    hs.2.at_reRead rest sent, (pass_GET_empty initMailbox rfl).at_reRead rest sent,
    hs.1.at_reRead rest sent⟩
  intro h
  have := congrArg Mailbox.empty h
  revert this
  decide

end Cubbyhole
